import Mathlib

/-!
# blend-go-sdk: lifecycle latch, healthz sidecar and batch worker pool

A shallow embedding of `web/healthz.go` and `async/batch.go`.

* Stateful methods become functions on explicit state records.
* Calls made on collaborators (the hosted process, the front door server, the
  logger) are recorded in traces carried by the state, so that "is invoked
  exactly once" is a statement about a list.
* The outcome of a Go `select` is an input of the model: the environment picks
  which ready case is taken.
* Goroutines of the worker pool are interleaved by a labelled step function.
-/

namespace Async

/-- Modelled from the spec: the phases of `async.Latch` (the file declaring the
latch is not among the sources). Section 3 of the specification lists the five
phases idle, starting, started, stopping and stopped. -/
inductive LatchPhase
  | idle
  | starting
  | started
  | stopping
  | stopped
  deriving DecidableEq, Repr

/-- Modelled from the spec: `async.Latch`, reduced to its phase field. The
notification channels are represented by the phase they announce. -/
structure Latch where
  phase : LatchPhase
  deriving DecidableEq, Repr

/-- Modelled from the spec: `Latch.Starting`, which moves idle or stopped to
starting and is a no-op from every other phase. -/
def Latch.Starting (l : Latch) : Latch :=
  match l.phase with
  | .idle => { phase := .starting }
  | .stopped => { phase := .starting }
  | _ => l

/-- Modelled from the spec: `Latch.Started`, which moves starting to started and
is a no-op from every other phase. -/
def Latch.Started (l : Latch) : Latch :=
  match l.phase with
  | .starting => { phase := .started }
  | _ => l

/-- Modelled from the spec: `Latch.Stopping`, which moves started to stopping
and is a no-op from every other phase. -/
def Latch.Stopping (l : Latch) : Latch :=
  match l.phase with
  | .started => { phase := .stopping }
  | _ => l

/-- Modelled from the spec: `Latch.Stopped`, which moves stopping to stopped and
is a no-op from every other phase. -/
def Latch.Stopped (l : Latch) : Latch :=
  match l.phase with
  | .stopping => { phase := .stopped }
  | _ => l

/-- Modelled from the spec: `Latch.IsStopping`, the instantaneous phase query. -/
def Latch.IsStopping (l : Latch) : Bool :=
  decide (l.phase = .stopping)

/-- The collaborator functions handed to `RunToError`, by name. -/
inductive Call
  | hostedStart
  | hostedShutdown
  | hostedIsRunning
  | hostedNotifyShutdown
  | selfStart
  | selfShutdown
  deriving DecidableEq, Repr

/-- Modelled from the spec: `async.RunToError` (its file is not among the
sources). Section 4.3 describes it as running the given routines concurrently
and propagating the result of the first one to finish. Each function is given
with the result it will return; `firstDone` is the position of the routine
that finishes first. The value is the list of routines launched, in launch
order, and the propagated result. -/
def RunToError (fns : List (Call × Option String)) (firstDone : Nat) :
    List Call × Option String :=
  (fns.map Prod.fst, ((fns.get? firstDone).map Prod.snd).join)

/-! ### The batch worker pool

`Batch.Process` runs one distributing goroutine and `numWorkers` worker
goroutines that meet on channels. The embedding is a labelled step function on
a state holding the program counter of `Process`, the state of every worker
goroutine, the buffer of the `b.workers` channel and the pool latch. A label
names the goroutine that moves next; a blocked goroutine has no step. -/

/-- The type `Batch`, reduced to what `Process` reads: the worker count, the work
items (values of `interface{}`, represented by natural numbers), the action
with the error it returns, and whether an error channel is set. -/
structure Batch where
  numWorkers : Nat
  workItems : List Nat
  action : Nat → Option String
  errorsSet : Bool

/-- The constructor `NewBatch`; the worker count is the value of
`runtime.NumCPU()`, taken as an argument. -/
def NewBatch (numCPU : Nat) (action : Nat → Option String) (workItems : List Nat) : Batch :=
  { numWorkers := numCPU, workItems := workItems, action := action, errorsSet := false }

/-- The method `WithNumWorkers`. -/
def Batch.WithNumWorkers (b : Batch) (numWorkers : Nat) : Batch :=
  { b with numWorkers := numWorkers }

/-- The method `WithErrors`, as far as `Process` can tell: an error channel is
set. -/
def Batch.WithErrors (b : Batch) : Batch :=
  { b with errorsSet := true }

/-- Modelled from the spec: where the goroutine of one `Worker` stands (the file
declaring `Worker` is not among the sources). A worker waits at its inbound
handoff point; once handed an item it runs the wrapped action built by
`andReturn`, whose user action is `running` and whose deferred send of the
worker to `b.workers` is pending while `returning`; a failure is then forwarded
to the error sink (`reporting`); `Stop` ends the goroutine. -/
inductive WorkerState
  | waiting
  | running (item : Nat)
  | returning (err : Option String)
  | reporting (err : String)
  | stopped
  deriving DecidableEq, Repr

/-- A worker is resting when it is not inside the wrapped action and has not
been stopped. -/
def WorkerState.resting : WorkerState → Bool
  | .waiting => true
  | .reporting _ => true
  | _ => false

/-- The user action is executing. -/
def WorkerState.isRunning : WorkerState → Bool
  | .running _ => true
  | _ => false

/-- The user action has returned and the deferred send is pending. -/
def WorkerState.isReturning : WorkerState → Bool
  | .returning _ => true
  | _ => false

/-- Where the goroutine running `Process` stands. `creating x`, `distributing x`
and `draining x` are the heads of the three loops with loop variable `x`;
`enqueueing` is inside `worker.Enqueue(workItem)` and `stoppingWorker` inside
`worker.Stop()`, both waiting for the worker; `returned (some i)` is the return
from the stop case of the `select` at item `i`, `returned none` the return at
the end of the function. -/
inductive Pc
  | creating (x : Nat)
  | distributing (x : Nat)
  | enqueueing (x : Nat) (worker : Nat) (workItem : Nat)
  | draining (x : Nat)
  | stoppingWorker (x : Nat) (worker : Nat)
  | returned (abandonedAt : Option Nat)
  deriving DecidableEq, Repr

/-- The worker `Process` has taken from the ready queue and is blocked on. -/
def Pc.held : Pc → Option Nat
  | .enqueueing _ w _ => some w
  | .stoppingWorker _ w => some w
  | _ => none

/-- The number of `Enqueue` calls made that the worker has not yet received. -/
def Pc.pendingHandoff : Pc → Nat
  | .enqueueing _ _ _ => 1
  | _ => 0

/-- The state of a running `Process` call. Workers are named by the value of the
loop variable at their creation and `workers` lists their goroutines in that
order; `ready` is the buffer of the channel `b.workers`, oldest first; `latch`
is the pool latch `b.latch`; `errors` lists what reached the error sink;
`enqueued` lists the calls of `Worker.Enqueue` as worker and item and `stops`
the calls of `Worker.Stop`, oldest first; the counters count the user action
invocations started and returned and the completed deferred sends. -/
structure PoolState where
  pc : Pc
  workers : List WorkerState
  ready : List Nat
  latch : Latch
  errors : List String
  enqueued : List (Nat × Nat)
  stops : List Nat
  actionsStarted : Nat
  actionsReturned : Nat
  pushBacks : Nat
  deriving DecidableEq, Repr

/-- The state at the entry of `Process` on a batch made by `NewBatch`. -/
def PoolState.initial : PoolState :=
  { pc := .creating 0, workers := [], ready := [], latch := { phase := .idle }, errors := [],
    enqueued := [], stops := [], actionsStarted := 0, actionsReturned := 0, pushBacks := 0 }

/-- The four transition methods of a latch. -/
inductive LatchOp
  | starting
  | started
  | stopping
  | stopped
  deriving DecidableEq, Repr

/-- Apply a transition method. -/
def LatchOp.apply : LatchOp → Latch → Latch
  | .starting, l => l.Starting
  | .started, l => l.Started
  | .stopping, l => l.Stopping
  | .stopped, l => l.Stopped

/-- Who moves next: the goroutine of `Process` (in a `select` with both cases
ready, `takeStop` says whether the stop case is taken), the goroutine of a
worker, or a caller outside the pool operating on `b.Latch()`. -/
inductive Label
  | process (takeStop : Bool)
  | worker (w : Nat)
  | latchOp (op : LatchOp)
  deriving DecidableEq, Repr

/-- The method `Process`, one step of the goroutine running it.

* `creating x`: while `x < numWorkers` a worker is created, started and sent to
  `b.workers`; then the distribution loop is entered.
* `distributing x`: while `x < len(workItems)` the `select` either receives a
  worker from `b.workers` and calls `Enqueue` on it, or takes the pool latch's
  stopping notification, marks the latch stopped and returns; then the drain
  loop is entered.
* `draining x`: while `x < numWorkers` a worker is received from `b.workers`
  and `Stop` is called on it; then `Process` returns.

Inside `Enqueue` and `Stop` the goroutine is blocked until the worker moves. -/
def Batch.Process (b : Batch) (s : PoolState) (takeStop : Bool) : Option PoolState :=
  match s.pc with
  | .creating x =>
    if x < b.numWorkers then
      if s.ready.length < b.numWorkers then
        some { s with
          workers := s.workers ++ [.waiting], ready := s.ready ++ [x], pc := .creating (x + 1) }
      else none
    else some { s with pc := .distributing 0 }
  | .distributing x =>
    match b.workItems[x]? with
    | some workItem =>
      if takeStop then
        if s.latch.phase = .stopping then
          some { s with latch := s.latch.Stopped, pc := .returned (some x) }
        else none
      else
        match s.ready with
        | worker :: rest =>
          some { s with
            ready := rest, enqueued := s.enqueued ++ [(worker, workItem)],
            pc := .enqueueing x worker workItem }
        | [] => none
    | none => some { s with pc := .draining 0 }
  | .enqueueing _ _ _ => none
  | .draining x =>
    if x < b.numWorkers then
      match s.ready with
      | worker :: rest =>
        some { s with ready := rest, stops := s.stops ++ [worker], pc := .stoppingWorker x worker }
      | [] => none
    else some { s with pc := .returned none }
  | .stoppingWorker _ _ => none
  | .returned _ => none

/-- Modelled from the spec: what a worker does with the error its wrapped
action returned. A failure is forwarded to the error sink when an error channel
is set; otherwise the worker waits for its next item. -/
def Worker.afterAction (b : Batch) : Option String → WorkerState
  | some e => if b.errorsSet then .reporting e else .waiting
  | none => .waiting

/-- The method `andReturn`: the wrapped action of worker `w`, in two steps. The
user action returns its error; then the deferred function sends the worker to
`b.workers` (blocked while the buffer is full) and the wrapped action returns
the error to the worker. -/
def Batch.andReturn (b : Batch) (s : PoolState) (w : Nat) : WorkerState → Option PoolState
  | .running workItem =>
    some { s with
      workers := s.workers.set w (.returning (b.action workItem)),
      actionsReturned := s.actionsReturned + 1 }
  | .returning err =>
    if s.ready.length < b.numWorkers then
      some { s with
        ready := s.ready ++ [w], pushBacks := s.pushBacks + 1,
        workers := s.workers.set w (Worker.afterAction b err) }
    else none
  | _ => none

/-- Modelled from the spec: one step of the goroutine of worker `w` (the file
declaring `Worker` is not among the sources).

* A waiting worker receives the item `Process` is handing to it and starts the
  wrapped action, or takes the stop request `Process` is making and ends.
* Inside the wrapped action the worker follows `andReturn`.
* A failure being forwarded reaches the error sink and the worker waits
  again. -/
def stepWorker (b : Batch) (s : PoolState) (w : Nat) : Option PoolState :=
  match s.workers[w]? with
  | none => none
  | some .waiting =>
    match s.pc with
    | .enqueueing x worker workItem =>
      if worker = w then
        some { s with
          workers := s.workers.set w (.running workItem), pc := .distributing (x + 1),
          actionsStarted := s.actionsStarted + 1 }
      else none
    | .stoppingWorker x worker =>
      if worker = w then
        some { s with workers := s.workers.set w .stopped, pc := .draining (x + 1) }
      else none
    | _ => none
  | some (.running workItem) => b.andReturn s w (.running workItem)
  | some (.returning err) => b.andReturn s w (.returning err)
  | some (.reporting e) =>
    some { s with errors := s.errors ++ [e], workers := s.workers.set w .waiting }
  | some .stopped => none

/-- One step of the pool under a label. -/
def step (b : Batch) (s : PoolState) : Label → Option PoolState
  | .process takeStop => Batch.Process b s takeStop
  | .worker w => stepWorker b s w
  | .latchOp op => some { s with latch := op.apply s.latch }

/-- Run a schedule: the labels are taken one after the other; the run fails when
a label names a goroutine that is blocked. -/
def run (b : Batch) (s : PoolState) : List Label → Option PoolState
  | [] => some s
  | l :: ls => (step b s l).bind (fun t => run b t ls)

/-- The states the pool can move to from a given state. -/
inductive Steps (b : Batch) : PoolState → PoolState → Prop
  | refl (s : PoolState) : Steps b s s
  | tail {s t u : PoolState} (l : Label) : Steps b s t → step b t l = some u → Steps b s u

/-- The states a `Process` call passes through. -/
def Reachable (b : Batch) (s : PoolState) : Prop :=
  Steps b PoolState.initial s

/-- The state a schedule leads to from the entry of `Process`; the entry state
itself when the schedule cannot be run. -/
def stateAfter (b : Batch) (ls : List Label) : PoolState :=
  (run b PoolState.initial ls).getD PoolState.initial

/-- An example batch: two workers, the items 1 to 4, an action that fails on
every item, an error channel. -/
def exampleBatch : Batch :=
  ((NewBatch 8 (fun _ => some "failed") [1, 2, 3, 4]).WithNumWorkers 2).WithErrors

/-- An example schedule for `exampleBatch`: both workers are created, items 1
and 2 are handed to workers 0 and 1, and worker 0 has finished item 1 and is
back in the ready queue while worker 1 still runs item 2. -/
def exampleSchedule : List Label :=
  [.process false, .process false, .process false,
    .process false, .worker 0, .process false, .worker 1,
    .worker 0, .worker 0, .worker 0]

/-- An example schedule in which a caller outside the pool takes the pool latch
to stopping once item 1 has been handed over. -/
def exampleStopSchedule : List Label :=
  [.process false, .process false, .process false,
    .process false, .worker 0,
    .latchOp .starting, .latchOp .started, .latchOp .stopping]

/-- The step takes the pool latch's stopping notification: `Process` stands in
the `select` of the distribution loop, with an item left to hand over, and the
stop case is the one taken. -/
def takesStop (b : Batch) (s : PoolState) : Label → Bool
  | .process true =>
    match s.pc with
    | .distributing x => (b.workItems[x]?).isSome
    | _ => false
  | _ => false

/-- The states the pool can move to from a given state while no step takes the
stop notification. -/
inductive NoStopSteps (b : Batch) : PoolState → PoolState → Prop
  | refl (s : PoolState) : NoStopSteps b s s
  | tail {s t u : PoolState} (l : Label) :
    NoStopSteps b s t → step b t l = some u → takesStop b t l = false → NoStopSteps b s u

/-- The states a `Process` call passes through as long as no stop notification
is taken. -/
def NoStopReachable (b : Batch) (s : PoolState) : Prop :=
  NoStopSteps b PoolState.initial s

/-- The number of user action invocations in progress. -/
def PoolState.inProgress (s : PoolState) : Nat :=
  s.actionsStarted - s.actionsReturned

/-- The items handed to workers so far, in the order of the `Enqueue` calls. -/
def PoolState.handed (s : PoolState) : List Nat :=
  s.enqueued.map Prod.snd

/-- What holds at each point of `Process`: how many workers exist, how many
have been stopped and which items have been handed over. -/
def pcInv (b : Batch) (s : PoolState) : Prop :=
  match s.pc with
  | .creating x =>
    s.workers.length = x ∧ x ≤ b.numWorkers ∧ s.stops = [] ∧ s.enqueued.map Prod.snd = []
  | .distributing x =>
    s.workers.length = b.numWorkers ∧ s.stops = [] ∧
      s.enqueued.map Prod.snd = b.workItems.take x ∧ x ≤ b.workItems.length
  | .enqueueing x _ _ =>
    s.workers.length = b.numWorkers ∧ s.stops = [] ∧
      s.enqueued.map Prod.snd = b.workItems.take (x + 1) ∧ x < b.workItems.length
  | .draining x =>
    s.workers.length = b.numWorkers ∧ s.stops.length = x ∧ x ≤ b.numWorkers ∧
      s.enqueued.map Prod.snd = b.workItems
  | .stoppingWorker x _ =>
    s.workers.length = b.numWorkers ∧ s.stops.length = x + 1 ∧ x < b.numWorkers ∧
      s.enqueued.map Prod.snd = b.workItems
  | .returned none =>
    s.workers.length = b.numWorkers ∧ s.stops.length = b.numWorkers ∧
      s.enqueued.map Prod.snd = b.workItems
  | .returned (some i) =>
    s.workers.length = b.numWorkers ∧ s.stops = [] ∧
      s.enqueued.map Prod.snd = b.workItems.take i ∧ i < b.workItems.length

/-- The invariant of the pool: the ready queue holds each worker at most once
and only resting workers; the worker `Process` is blocked on is out of the
ready queue and resting; a stopped worker is out of the ready queue and its
goroutine has ended or is being waited for; the counters agree with the states
of the worker goroutines. -/
structure Inv (b : Batch) (s : PoolState) : Prop where
  atPc : pcInv b s
  readyNodup : s.ready.Nodup
  readyResting : ∀ w ∈ s.ready, ∃ st, s.workers[w]? = some st ∧ st.resting = true
  heldOut : ∀ w, s.pc.held = some w →
    w ∉ s.ready ∧ ∃ st, s.workers[w]? = some st ∧ st.resting = true
  stopsNodup : s.stops.Nodup
  stopsStopped : ∀ w ∈ s.stops,
    w ∉ s.ready ∧ (s.workers[w]? = some .stopped ∨ s.pc.held = some w)
  startedEq : s.actionsStarted = s.actionsReturned + s.workers.countP WorkerState.isRunning
  returnedEq : s.actionsReturned = s.pushBacks + s.workers.countP WorkerState.isReturning

end Async

namespace Web

open Async

/-- The value carried by a Go panic, as far as `fmt.Sprintf` with the `%v` verb
can tell values apart. -/
inductive PanicValue
  | str (s : String)
  | err (msg : String)
  | int (n : Int)
  deriving DecidableEq, Repr

/-- The text `fmt.Sprintf` produces for a panic value under the `%v` verb. -/
def sprintfV : PanicValue → String
  | .str s => s
  | .err msg => msg
  | .int n => toString n

/-- How a Go call ends: it returns, or it panics with a value. The state reached
at that point is kept in both cases. -/
inductive Outcome (α : Type)
  | returned (a : α)
  | panicked (v : PanicValue) (a : α)
  deriving DecidableEq, Repr

/-- The state reached when the call ended. -/
def Outcome.state {α : Type} : Outcome α → α
  | .returned a => a
  | .panicked _ a => a

/-- The events sent to the logger. -/
inductive LogEvent
  | infof (msg : String)
  | warningf (msg : String)
  | debugf (msg : String)
  | fatalf (msg : String)
  | error (msg : String)
  | httpRequest (route : String)
  | httpResponse (statusCode : Nat) (contentLength : Nat)
  deriving DecidableEq, Repr

/-- The `http.ResponseWriter` of one request. `statusCode` is the status line
sent to the client (meaningful once `wroteHeader` is set), `header` the header
map as an association list and `body` the bytes written so far. -/
structure ResponseWriter where
  wroteHeader : Bool
  statusCode : Nat
  header : List (String × String)
  body : String
  deriving DecidableEq, Repr

/-- A fresh response writer, as the server hands to `ServeHTTP`. -/
def ResponseWriter.fresh : ResponseWriter :=
  { wroteHeader := false, statusCode := 0, header := [], body := "" }

/-- The method `Header().Set`: replace the value stored under a key. -/
def ResponseWriter.setHeader (w : ResponseWriter) (key value : String) : ResponseWriter :=
  { w with header := (key, value) :: w.header.filter (fun kv => kv.1 ≠ key) }

/-- The method `WriteHeader`: the first call fixes the status line, later calls
are superfluous and ignored by `net/http`. -/
def ResponseWriter.WriteHeader (w : ResponseWriter) (code : Nat) : ResponseWriter :=
  if w.wroteHeader then w else { w with wroteHeader := true, statusCode := code }

/-- The method `Write` (reached through `fmt.Fprintf`): a write before any
`WriteHeader` sends status 200 first; the bytes are appended to the body. -/
def ResponseWriter.Write (w : ResponseWriter) (bytes : String) : ResponseWriter :=
  let w1 := w.WriteHeader 200
  { w1 with body := w1.body ++ bytes }

/-- The constant `http.StatusOK`. -/
def StatusOK : Nat := 200

/-- The constant `http.StatusNotFound`. -/
def StatusNotFound : Nat := 404

/-- The constant `http.StatusInternalServerError`. -/
def StatusInternalServerError : Nat := 500

/-- Modelled from the spec: the constant `HeaderContentType` of package web,
declared outside the sources. -/
def HeaderContentType : String := "Content-Type"

/-- Modelled from the spec: the constant `ContentTypeText` of package web,
declared outside the sources; section 6 gives the wire value `text/plain`. -/
def ContentTypeText : String := "text/plain"

/-- Modelled from the spec: the constant `HeaderContentEncoding` of package web,
declared outside the sources. -/
def HeaderContentEncoding : String := "Content-Encoding"

/-- Modelled from the spec: the constant `ContentEncodingIdentity` of package
web, declared outside the sources. -/
def ContentEncodingIdentity : String := "identity"

/-- The standard library function `http.Error`: set the plain text headers,
write the status line and print the message followed by a newline. -/
def httpError (w : ResponseWriter) (msg : String) (code : Nat) : ResponseWriter :=
  let w1 := w.setHeader "Content-Type" "text/plain; charset=utf-8"
  let w2 := w1.setHeader "X-Content-Type-Options" "nosniff"
  (w2.WriteHeader code).Write (msg ++ "\n")

/-- The standard library function `http.NotFound`. -/
def httpNotFound (w : ResponseWriter) : ResponseWriter :=
  httpError w "404 page not found" StatusNotFound

/-- The type `Healthz`. `log` is `none` for a nil logger and otherwise holds the
events logged so far; `calls` records the methods invoked on the hosted process
and on the front door `self`, oldest first. -/
structure Healthz where
  latch : Latch
  log : Option (List LogEvent)
  defaultHeaders : List (String × String)
  gracePeriod : Nat
  recoverPanics : Bool
  calls : List Call
  deriving DecidableEq, Repr

/-- The constructor `NewHealthz`: a fresh latch, no logger, no default headers.
The grace period is the value of the constant `DefaultShutdownGracePeriod`,
taken as an argument because the constant is declared outside the sources. -/
def NewHealthz (defaultShutdownGracePeriod : Nat) : Healthz :=
  { latch := { phase := .idle }, log := none, defaultHeaders := [],
    gracePeriod := defaultShutdownGracePeriod, recoverPanics := false, calls := [] }

/-- The method `WithLogger`. -/
def Healthz.WithLogger (hz : Healthz) (log : Option (List LogEvent)) : Healthz :=
  { hz with log := log }

/-- The method `WithRecoverPanics`. -/
def Healthz.WithRecoverPanics (hz : Healthz) (value : Bool) : Healthz :=
  { hz with recoverPanics := value }

/-- The guarded logging idiom `if hz.log != nil`: the event is recorded when a
logger is set and dropped otherwise. -/
def Healthz.logIfSet (hz : Healthz) (e : LogEvent) : Healthz :=
  { hz with log := hz.log.map (fun evs => evs ++ [e]) }

/-- Record the invocation of a collaborator method. -/
def Healthz.invoke (hz : Healthz) (c : Call) : Healthz :=
  { hz with calls := hz.calls ++ [c] }

/-- The method `healthzHandler`. `isRunning` is what `hz.hosted.IsRunning()`
does if it is called: it returns a boolean or panics. -/
def Healthz.healthzHandler (hz : Healthz) (isRunning : Except PanicValue Bool)
    (w : ResponseWriter) : Outcome (Healthz × ResponseWriter) :=
  if hz.latch.IsStopping then
    let w1 := w.WriteHeader StatusInternalServerError
    let w2 := w1.setHeader HeaderContentType ContentTypeText
    let w3 := w2.Write "Shutting down.\n"
    let hz1 := hz.logIfSet (.debugf "healthz received probe while in process of shutdown")
    .returned ({ hz1 with latch := hz1.latch.Stopped }, w3)
  else
    let hz1 := hz.invoke .hostedIsRunning
    match isRunning with
    | .error v => .panicked v (hz1, w)
    | .ok true =>
      let w1 := w.WriteHeader StatusOK
      let w2 := w1.setHeader HeaderContentType ContentTypeText
      .returned (hz1, w2.Write "OK!\n")
    | .ok false =>
      let w1 := w.WriteHeader StatusInternalServerError
      let w2 := w1.setHeader HeaderContentType ContentTypeText
      .returned (hz1, w2.Write "Failure!\n")

/-- The part of Go's `strings.ToLower` that acts on ASCII letters. -/
def stringsToLower (s : String) : String :=
  String.mk (s.data.map Char.toLower)

/-- The error returned by `res.Close()`, as far as `ServeHTTP` tells errors
apart: `http.ErrBodyNotAllowed` or any other error. -/
inductive CloseError
  | bodyNotAllowed
  | other (msg : String)
  deriving DecidableEq, Repr

/-- What one request meets: the URL path, what `hz.hosted.IsRunning()` does if
it is called while the request is served, and what `res.Close()` returns. -/
structure RequestEnv where
  path : String
  isRunning : Except PanicValue Bool
  closeErr : Option CloseError

/-- The body of `ServeHTTP` below its first `defer`: the route is computed, the
raw response writer gets the identity content encoding and the default headers,
the request is logged, the route is dispatched and the response is closed. The
deferred response event is logged on return and on panic alike. The raw
response writer `res` wraps `w` and passes every call through, so both are the
one record `w`. -/
def Healthz.serveRoute (hz : Healthz) (env : RequestEnv) (w : ResponseWriter) :
    Outcome (Healthz × ResponseWriter) :=
  let route := stringsToLower env.path
  let res := w.setHeader HeaderContentEncoding ContentEncodingIdentity
  let hz1 := hz.logIfSet (.httpRequest route)
  let res1 := hz.defaultHeaders.foldl (fun r kv => r.setHeader kv.1 kv.2) res
  let handled :=
    if route = "/healthz" then hz1.healthzHandler env.isRunning res1
    else .returned (hz1, httpNotFound res1)
  match handled with
  | .returned (hz2, w2) =>
    let hz3 :=
      match env.closeErr with
      | some (.other msg) => hz2.logIfSet (.error msg)
      | _ => hz2
    .returned (hz3.logIfSet (.httpResponse w2.statusCode w2.body.utf8ByteSize), w2)
  | .panicked v (hz2, w2) =>
    .panicked v (hz2.logIfSet (.httpResponse w2.statusCode w2.body.utf8ByteSize), w2)

/-- The method `recover`, run when the deferred call meets a panic value: the
value is reported to the logger when one is set, and `http.Error` writes its
formatting with status 500. -/
def Healthz.recover (hz : Healthz) (rcv : PanicValue) (w : ResponseWriter) :
    Healthz × ResponseWriter :=
  (hz.logIfSet (.fatalf (sprintfV rcv)),
    httpError w (sprintfV rcv) StatusInternalServerError)

/-- The method `ServeHTTP`: the body runs under the deferred `recover` when
`recoverPanics` is set, and unprotected otherwise. -/
def Healthz.ServeHTTP (hz : Healthz) (env : RequestEnv) (w : ResponseWriter) :
    Outcome (Healthz × ResponseWriter) :=
  match hz.serveRoute env w with
  | .returned st => .returned st
  | .panicked v (hz1, w1) =>
    if hz.recoverPanics then .returned (hz1.recover v w1) else .panicked v (hz1, w1)

/-- Serve a sequence of requests one after the other, each on a fresh response
writer, as the front door does; the responses are collected oldest first. -/
def Healthz.serveAll (hz : Healthz) : List RequestEnv → Healthz × List ResponseWriter
  | [] => (hz, [])
  | env :: rest =>
    let st := (hz.ServeHTTP env ResponseWriter.fresh).state
    let r := Healthz.serveAll st.1 rest
    (r.1, st.2 :: r.2)

/-- The three signals `Shutdown` selects on. -/
inductive RaceSignal
  | hostedNotifyShutdown
  | contextDone
  | latchNotifyStopped
  deriving DecidableEq, Repr

/-- What one `Shutdown` call meets: the signal its `select` takes, the errors
the two `Shutdown` methods return, and which routine of `RunToError` finishes
first. -/
structure ShutdownEnv where
  winner : RaceSignal
  hostedShutdownErr : Option String
  selfShutdownErr : Option String
  firstDone : Nat

/-- The method `Start`, as far as the coordinator's own state goes: the latch is
taken through starting to started and both start routines are handed to
`RunToError`. -/
def Healthz.Start (hz : Healthz) (hostedStartErr selfStartErr : Option String)
    (firstDone : Nat) : Healthz × Option String :=
  let hz1 := { hz with latch := hz.latch.Starting.Started }
  let r := RunToError [(.selfStart, selfStartErr), (.hostedStart, hostedStartErr)] firstDone
  ({ hz1 with calls := hz1.calls ++ r.1 }, r.2)

/-- The method `shutdownServers`. -/
def Healthz.shutdownServers (hz : Healthz) (env : ShutdownEnv) : Healthz × Option String :=
  let r := RunToError
    [(.hostedShutdown, env.hostedShutdownErr), (.selfShutdown, env.selfShutdownErr)]
    env.firstDone
  ({ hz with calls := hz.calls ++ r.1 }, r.2)

/-- The first half of `Shutdown`, up to the `select`: the shutdown is logged
and the latch is asked to enter stopping. Probes served while `Shutdown` waits
in its `select` see this state. -/
def Healthz.enterStopping (hz : Healthz) : Healthz :=
  let hz1 := hz.logIfSet
    (.infof ("healthz is shutting down with (" ++ toString hz.gracePeriod ++ ") grace period"))
  { hz1 with latch := hz1.latch.Stopping }

/-- The method `Shutdown`: after `enterStopping` the `select` evaluates its
channel operands and the case of the winning signal runs. -/
def Healthz.Shutdown (hz : Healthz) (env : ShutdownEnv) : Healthz × Option String :=
  let hz1 := hz.enterStopping.invoke .hostedNotifyShutdown
  match env.winner with
  | .hostedNotifyShutdown => (hz1.invoke .selfShutdown, env.selfShutdownErr)
  | .contextDone =>
    (hz1.logIfSet (.warningf "healthz shutdown grace period has expired")).shutdownServers env
  | .latchNotifyStopped => hz1.shutdownServers env

/-- The methods invoked by a call, given the trace before and after it. -/
def callsDuring (before after : Healthz) : List Call :=
  after.calls.drop before.calls.length

end Web

namespace Web

/-- The response writer as `ServeHTTP` hands it to the route switch: the
identity content encoding and the default headers are set on it. -/
def Healthz.prepared (hz : Healthz) (w : ResponseWriter) : ResponseWriter :=
  hz.defaultHeaders.foldl (fun r kv => r.setHeader kv.1 kv.2)
    (w.setHeader HeaderContentEncoding ContentEncodingIdentity)

/-- The deferred call `defer hz.recover(w, r)` of `ServeHTTP`, applied to the way
the rest of the function ended. After a return `recover()` yields nil and
nothing happens; after a panic the value is recovered when `recoverPanics` is
set, and the panic goes on otherwise. The state is the one reached at the
panic, wherever in the function it was raised. -/
def Healthz.deferRecover (hz : Healthz) :
    Outcome (Healthz × ResponseWriter) → Outcome (Healthz × ResponseWriter)
  | .returned st => .returned st
  | .panicked v (hz1, w1) =>
    if hz.recoverPanics then .returned (hz1.recover v w1) else .panicked v (hz1, w1)

end Web

namespace Collections

/-! ### The channel queue

`ChannelQueue` keeps its items in a buffered Go channel. Used by one goroutine
at a time, a channel is its capacity and its buffer; an operation that would
block forever has no result. Items (values of `interface{}`) are represented
by natural numbers and the `nil` a method returns by `none`. -/

/-- A buffered channel: the capacity it was made with and the buffered values,
oldest first. -/
structure Chan where
  cap : Nat
  buf : List Nat
  deriving DecidableEq, Repr

/-- The builtin `make(chan interface{}, capacity)`. -/
def Chan.make (capacity : Nat) : Chan :=
  { cap := capacity, buf := [] }

/-- The builtin `len` on a channel. -/
def Chan.len (c : Chan) : Nat :=
  c.buf.length

/-- The receive operation: the oldest value leaves the buffer; on an empty
buffer the receive blocks. -/
def Chan.recv (c : Chan) : Option (Nat × Chan) :=
  match c.buf with
  | [] => none
  | v :: rest => some (v, { c with buf := rest })

/-- The send operation: the value joins the buffer at the back; on a full
buffer the send blocks. -/
def Chan.send (c : Chan) (v : Nat) : Option Chan :=
  if c.buf.length < c.cap then some { c with buf := c.buf ++ [v] } else none

/-- The type `ChannelQueue`; the mutex field holds no data. -/
structure ChannelQueue where
  Capacity : Nat
  storage : Chan
  deriving DecidableEq, Repr

/-- The constructor `NewChannelQueueWithCapacity`. -/
def NewChannelQueueWithCapacity (capacity : Nat) : ChannelQueue :=
  { Capacity := capacity, storage := Chan.make capacity }

/-- The loop `for _, v := range values`, sending each value to the channel. -/
def sendAll : List Nat → Chan → Option Chan
  | [], c => some c
  | v :: rest, c => (c.send v).bind (fun c1 => sendAll rest c1)

/-- The constructor `NewChannelQueueFromValues`. -/
def NewChannelQueueFromValues (values : List Nat) : Option ChannelQueue :=
  (sendAll values (Chan.make values.length)).map
    (fun c => { Capacity := values.length, storage := c })

/-- The method `Len`. -/
def ChannelQueue.Len (cq : ChannelQueue) : Nat :=
  cq.storage.len

/-- The method `Enqueue`. -/
def ChannelQueue.Enqueue (cq : ChannelQueue) (item : Nat) : Option ChannelQueue :=
  (cq.storage.send item).map (fun c => { cq with storage := c })

/-- The loop `for x := 0; x < storageLen; x++` of `DequeueBack` and `Contents`,
with the number of iterations left: a value is received and appended to
`values`. -/
def receiveLoop : Nat → Chan → List Nat → Option (List Nat × Chan)
  | 0, c, values => some (values, c)
  | n + 1, c, values =>
    match c.recv with
    | none => none
    | some (v, c1) => receiveLoop n c1 (values ++ [v])

/-- The loop `for index, v := range values` of `DequeueBack`, on the values left
to visit and the index of the first of them: the value at index
`len(values)-1` becomes the output, every other value is sent back. -/
def putBackLoop (len : Nat) : List Nat → Nat → Chan → Option Nat → Option (Option Nat × Chan)
  | [], _, c, output => some (output, c)
  | v :: rest, index, c, output =>
    if (index : Int) = (len : Int) - 1 then putBackLoop len rest (index + 1) c (some v)
    else
      match c.send v with
      | none => none
      | some c1 => putBackLoop len rest (index + 1) c1 output

/-- The method `DequeueBack`: the returned value and the queue afterwards. -/
def ChannelQueue.DequeueBack (cq : ChannelQueue) : Option (Option Nat × ChannelQueue) :=
  let storageLen := cq.storage.len
  match receiveLoop storageLen cq.storage [] with
  | none => none
  | some (values, c1) =>
    match putBackLoop values.length values 0 c1 none with
    | none => none
    | some (output, c2) => some (output, { cq with storage := c2 })

/-- The method `Contents`: the returned slice and the queue afterwards. -/
def ChannelQueue.Contents (cq : ChannelQueue) : Option (List Nat × ChannelQueue) :=
  let storageLen := cq.storage.len
  match receiveLoop storageLen cq.storage [] with
  | none => none
  | some (values, c1) =>
    match sendAll values c1 with
    | none => none
    | some c2 => some (values, { cq with storage := c2 })

end Collections

namespace Sh

/-! ### Running commands

An `exec.Cmd` is reduced to its three standard streams. What a command does
when it runs is an input of the model. -/

/-- What a standard stream of a command can be set to: one of the three
streams of the process, or an end of the pipe made at a given index. -/
inductive Stream
  | unset
  | osStdin
  | osStdout
  | osStderr
  | pipeReader (index : Nat)
  | pipeWriter (index : Nat)
  deriving DecidableEq, Repr

/-- The three stream fields of `exec.Cmd`. -/
structure Cmd where
  Stdin : Stream
  Stdout : Stream
  Stderr : Stream
  deriving DecidableEq, Repr

/-- The body of the loop of `Pipe` that wires the command at `index` of `len`
commands, the three cases of the `switch` in their order. -/
def wire (len index : Nat) : Cmd :=
  if index = 0 then
    { Stdin := .osStdin, Stdout := .pipeWriter index, Stderr := .pipeWriter index }
  else if (index : Int) = (len : Int) - 1 then
    { Stdin := .pipeReader (index - 1), Stdout := .osStdout, Stderr := .osStderr }
  else
    { Stdin := .pipeReader (index - 1), Stdout := .pipeWriter index, Stderr := .pipeWriter index }

/-- The function `Pipe`, as far as the wiring goes: the streams of the commands
once the loop is through, in the order of the commands. The pipe made in the
iteration `index` has the ends `pipeReader index` and `pipeWriter index`. -/
def Pipe (commands : List Cmd) : List Cmd :=
  (List.range commands.length).map (fun index => wire commands.length index)

/-- What `PutOutput` meets: `lookPath` is `exec.LookPath`, and `run` is what
running the command at an absolute path with arguments and standard input does,
the bytes it writes to its standard output and standard error and the error
`cmd.Run` returns. -/
structure ExecEnv where
  lookPath : String → Except String String
  run : String → List String → String → String × Option String

/-- The type `bytes.Buffer`, by its contents. -/
structure Buffer where
  contents : String
  deriving DecidableEq, Repr

/-- The method `Bytes` of `bytes.Buffer`: the slice of the bytes held at the
time of the call. -/
def Buffer.Bytes (b : Buffer) : String :=
  b.contents

/-- The method `Write` of `bytes.Buffer`. -/
def Buffer.Write (b : Buffer) (p : String) : Buffer :=
  { contents := b.contents ++ p }

/-- What `PutOutput` returns, with the buffer as it stands at the return and
whether the command was run. -/
structure PutOutputResult where
  bytes : String
  err : Option String
  buffer : Buffer
  ran : Bool
  deriving DecidableEq, Repr

/-- The function `PutOutput`. The operands of the `return` statement are
evaluated from left to right: `buffer.Bytes()` is taken first, then `cmd.Run()`
runs the command, which writes to the buffer. A nil byte slice is the empty
string. -/
def PutOutput (env : ExecEnv) (stdin : String) (command : String) (args : List String) :
    PutOutputResult :=
  match env.lookPath command with
  | .error err => { bytes := "", err := some err, buffer := { contents := "" }, ran := false }
  | .ok absoluteCommand =>
    let buffer : Buffer := { contents := "" }
    let bytes := buffer.Bytes
    let ran := env.run absoluteCommand args stdin
    { bytes := bytes, err := ran.2, buffer := buffer.Write ran.1, ran := true }

/-- An example environment: `echo` is found at `/bin/echo` and writes its
arguments, each followed by a newline, to its standard output; no other command
is found. -/
def exampleEnv : ExecEnv :=
  { lookPath := fun command =>
      if command = "echo" then .ok "/bin/echo" else .error "executable file not found in $PATH",
    run := fun _ args _ => (String.join (args.map (fun a => a ++ "\n")), none) }

end Sh

/-! ## Theorems -/

namespace Async

theorem Inv_initial (b : Batch) : Inv b PoolState.initial := by
  constructor <;> simp [PoolState.initial, pcInv, Pc.held]

theorem lt_length_of_getElem? {α : Type} {l : List α} {i : Nat} {a : α} (h : l[i]? = some a) :
    i < l.length := by
  obtain ⟨hi, -⟩ := List.getElem?_eq_some.1 h
  exact hi

theorem Inv_Process {b : Batch} {s t : PoolState} {takeStop : Bool} (h : Inv b s)
    (hs : Batch.Process b s takeStop = some t) : Inv b t := by
  obtain ⟨hpcI, hrn, hrr, hho, hsn, hss, hst, hret⟩ := h
  unfold Batch.Process at hs
  cases hpc : s.pc with
  | creating x =>
    simp only [hpc] at hs
    simp only [pcInv, hpc] at hpcI
    obtain ⟨hlen, hx, hstops, hhanded⟩ := hpcI
    have hlt : ∀ w ∈ s.ready, w < x := by
      intro w hw
      obtain ⟨st, hw1, -⟩ := hrr w hw
      exact hlen ▸ lt_length_of_getElem? hw1
    split at hs
    · split at hs
      · injection hs with hs; subst hs
        refine ⟨?_, ?_, ?_, ?_, ?_, ?_, ?_, ?_⟩
        · simp only [pcInv, List.length_append, List.length_singleton, hlen, hstops, hhanded]
          simp
          omega
        · rw [List.nodup_append]
          refine ⟨hrn, List.nodup_singleton _, ?_⟩
          intro a ha hb
          have := hlt a ha
          simp at hb
          omega
        · intro w hw
          simp only [List.mem_append, List.mem_singleton] at hw
          rcases hw with hw | rfl
          · obtain ⟨st, hw1, hw2⟩ := hrr w hw
            exact ⟨st, by simp [List.getElem?_append_left (lt_length_of_getElem? hw1), hw1], hw2⟩
          · refine ⟨.waiting, ?_, rfl⟩
            simp [← hlen]
        · intro w hw
          simp [Pc.held] at hw
        · exact hsn
        · simp [hstops]
        · simpa [List.countP_append, WorkerState.isRunning] using hst
        · simpa [List.countP_append, WorkerState.isReturning] using hret
      · simp at hs
    · injection hs with hs; subst hs
      refine ⟨?_, hrn, hrr, ?_, hsn, ?_, hst, hret⟩
      · simp only [pcInv, hstops, hhanded]
        simp
        omega
      · intro w hw
        simp [Pc.held] at hw
      · simp [hstops]
  | distributing x =>
    simp only [hpc] at hs
    simp only [pcInv, hpc] at hpcI
    obtain ⟨hlen, hstops, hhanded, hx⟩ := hpcI
    split at hs
    · rename_i workItem hitem
      split at hs
      · split at hs
        · injection hs with hs; subst hs
          refine ⟨?_, hrn, hrr, ?_, hsn, ?_, hst, hret⟩
          · simp only [pcInv, hstops, hhanded, hlen]
            exact ⟨trivial, trivial, trivial, lt_length_of_getElem? hitem⟩
          · intro w hw
            simp [Pc.held] at hw
          · simp [hstops]
        · simp at hs
      · split at hs
        · rename_i worker rest hready
          injection hs with hs; subst hs
          rw [hready] at hrn hrr
          refine ⟨?_, (List.nodup_cons.1 hrn).2, ?_, ?_, hsn, ?_, hst, hret⟩
          · simp only [pcInv, hstops, hhanded, hlen, List.map_append, List.take_succ, hitem]
            exact ⟨trivial, trivial, by simp, lt_length_of_getElem? hitem⟩
          · intro w hw
            exact hrr w (List.mem_cons_of_mem _ hw)
          · intro w hw
            simp only [Pc.held, Option.some.injEq] at hw
            subst hw
            exact ⟨(List.nodup_cons.1 hrn).1, hrr _ (List.mem_cons_self _ _)⟩
          · simp [hstops]
        · simp at hs
    · rename_i hitem
      injection hs with hs; subst hs
      refine ⟨?_, hrn, hrr, ?_, hsn, ?_, hst, hret⟩
      · simp only [pcInv, hstops, hhanded, hlen]
        have hge : b.workItems.length ≤ x := by
          rcases Nat.lt_or_ge x b.workItems.length with hlt | hge
          · simp [List.getElem?_eq_getElem hlt] at hitem
          · exact hge
        simp [List.take_of_length_le hge]
      · intro w hw
        simp [Pc.held] at hw
      · simp [hstops]
  | enqueueing x w item => simp [hpc] at hs
  | draining x =>
    simp only [hpc] at hs
    simp only [pcInv, hpc] at hpcI
    obtain ⟨hlen, hstops, hx, hhanded⟩ := hpcI
    have hstopped : ∀ v ∈ s.stops, s.workers[v]? = some .stopped := by
      intro v hv
      rcases (hss v hv).2 with h1 | h1
      · exact h1
      · simp [hpc, Pc.held] at h1
    split at hs
    · split at hs
      · rename_i worker rest hready
        injection hs with hs; subst hs
        have hwn : worker ∉ s.stops := by
          intro hmem
          exact (hss worker hmem).1 (by simp [hready])
        rw [hready] at hrn hrr
        refine ⟨?_, (List.nodup_cons.1 hrn).2, ?_, ?_, ?_, ?_, hst, hret⟩
        · simp only [pcInv, hstops, hhanded, hlen, List.length_append, List.length_singleton]
          exact ⟨trivial, trivial, by omega, trivial⟩
        · intro w hw
          exact hrr w (List.mem_cons_of_mem _ hw)
        · intro w hw
          simp only [Pc.held, Option.some.injEq] at hw
          subst hw
          exact ⟨(List.nodup_cons.1 hrn).1, hrr _ (List.mem_cons_self _ _)⟩
        · rw [List.nodup_append]
          refine ⟨hsn, List.nodup_singleton _, ?_⟩
          intro a ha hb
          simp at hb
          subst hb
          exact hwn ha
        · intro v hv
          simp only [List.mem_append, List.mem_singleton] at hv
          rcases hv with hv | rfl
          · refine ⟨?_, Or.inl (hstopped v hv)⟩
            intro hmem
            exact (hss v hv).1 (by simp [hready, hmem])
          · exact ⟨(List.nodup_cons.1 hrn).1, Or.inr rfl⟩
      · simp at hs
    · injection hs with hs; subst hs
      refine ⟨?_, hrn, hrr, ?_, hsn, ?_, hst, hret⟩
      · simp only [pcInv, hstops, hhanded, hlen]
        exact ⟨trivial, by omega, trivial⟩
      · intro w hw
        simp [Pc.held] at hw
      · intro v hv
        exact ⟨(hss v hv).1, Or.inl (hstopped v hv)⟩
  | stoppingWorker x w => simp [hpc] at hs
  | returned i => simp [hpc] at hs


theorem pcInv_frame {b : Batch} {s t : PoolState} (hpc : t.pc = s.pc)
    (hlen : t.workers.length = s.workers.length) (hstops : t.stops = s.stops)
    (henq : t.enqueued = s.enqueued) (h : pcInv b s) : pcInv b t := by
  simp only [pcInv, hpc, hlen, hstops, henq] at h ⊢
  exact h

theorem countP_set_of_getElem? {α : Type} (p : α → Bool) {l : List α} {i : Nat} {old : α}
    (a : α) (h : l[i]? = some old) :
    (l.set i a).countP p + (if p old then 1 else 0) = l.countP p + (if p a then 1 else 0) := by
  obtain ⟨hi, rfl⟩ := List.getElem?_eq_some.1 h
  rw [List.countP_set p l i a hi]
  have := List.boole_getElem_le_countP p l i hi
  omega

theorem resting_after_set {W : List WorkerState} {w v : Nat} {old a : WorkerState}
    (hw : W[w]? = some old) (ha : old.resting = false ∨ a.resting = true)
    (hv : ∃ st, W[v]? = some st ∧ st.resting = true) :
    ∃ st, (W.set w a)[v]? = some st ∧ st.resting = true := by
  obtain ⟨st, hv1, hv2⟩ := hv
  by_cases hvw : w = v
  · subst hvw
    rw [hw] at hv1
    injection hv1 with hv1
    subst hv1
    rcases ha with ha | ha
    · rw [ha] at hv2; cases hv2
    · exact ⟨a, by simp [List.getElem?_set, lt_length_of_getElem? hw], ha⟩
  · exact ⟨st, by simp [List.getElem?_set_ne hvw, hv1], hv2⟩

theorem Inv_stepWorker {b : Batch} {s t : PoolState} {w : Nat} (h : Inv b s)
    (hs : stepWorker b s w = some t) : Inv b t := by
  obtain ⟨hpcI, hrn, hrr, hho, hsn, hss, hst, hret⟩ := h
  unfold stepWorker at hs
  simp only [Batch.andReturn] at hs
  split at hs
  · simp at hs
  · rename_i hw
    split at hs
    · rename_i x worker workItem hpc
      split at hs
      · rename_i heq
        subst heq
        injection hs with hs; subst hs
        obtain ⟨hnot, -⟩ := hho worker (by simp [hpc, Pc.held])
        simp only [pcInv, hpc] at hpcI
        obtain ⟨hlen, hstops, hhanded, hx⟩ := hpcI
        have c1 := countP_set_of_getElem? WorkerState.isRunning (.running workItem) hw
        have c2 := countP_set_of_getElem? WorkerState.isReturning (.running workItem) hw
        simp only [WorkerState.isRunning, WorkerState.isReturning] at c1 c2
        refine ⟨?_, hrn, ?_, ?_, hsn, ?_, ?_, ?_⟩
        · simp only [pcInv, List.length_set, hlen, hstops, hhanded]
          exact ⟨trivial, trivial, trivial, hx⟩
        · intro v hv
          have hne : worker ≠ v := fun h => hnot (h ▸ hv)
          obtain ⟨st, h1, h2⟩ := hrr v hv
          exact ⟨st, by simp [List.getElem?_set_ne hne, h1], h2⟩
        · intro v hv
          simp [Pc.held] at hv
        · simp [hstops]
        · simp at c1 ⊢; omega
        · simp at c2 ⊢; omega
      · simp at hs
    · rename_i x worker hpc
      split at hs
      · rename_i hweq
        subst hweq
        injection hs with hs; subst hs
        obtain ⟨hnot, -⟩ := hho worker (by simp [hpc, Pc.held])
        simp only [pcInv, hpc] at hpcI
        obtain ⟨hlen, hstops, hx, hhanded⟩ := hpcI
        have c1 := countP_set_of_getElem? WorkerState.isRunning .stopped hw
        have c2 := countP_set_of_getElem? WorkerState.isReturning .stopped hw
        simp only [WorkerState.isRunning, WorkerState.isReturning] at c1 c2
        refine ⟨?_, hrn, ?_, ?_, hsn, ?_, ?_, ?_⟩
        · simp only [pcInv, List.length_set, hlen, hstops, hhanded]
          exact ⟨trivial, trivial, hx, trivial⟩
        · intro v hv
          have hne : worker ≠ v := fun h => hnot (h ▸ hv)
          obtain ⟨st, h1, h2⟩ := hrr v hv
          exact ⟨st, by simp [List.getElem?_set_ne hne, h1], h2⟩
        · intro v hv
          simp [Pc.held] at hv
        · intro v hv
          refine ⟨(hss v hv).1, Or.inl ?_⟩
          by_cases hvw : worker = v
          · subst hvw
            simp [List.getElem?_set, lt_length_of_getElem? hw]
          · rcases (hss v hv).2 with h1 | h1
            · simp [List.getElem?_set_ne hvw, h1]
            · simp [hpc, Pc.held] at h1
              exact absurd h1 hvw
        · simp at c1 ⊢; omega
        · simp at c2 ⊢; omega
      · simp at hs
    · simp at hs
  · rename_i workItem hw
    injection hs with hs; subst hs
    have c1 := countP_set_of_getElem? WorkerState.isRunning (.returning (b.action workItem)) hw
    have c2 := countP_set_of_getElem? WorkerState.isReturning (.returning (b.action workItem)) hw
    simp only [WorkerState.isRunning, WorkerState.isReturning] at c1 c2
    refine ⟨@pcInv_frame b s _ rfl (by simp) rfl rfl hpcI, hrn, ?_, ?_, hsn, ?_, ?_, ?_⟩
    · intro v hv
      exact resting_after_set hw (Or.inl rfl) (hrr v hv)
    · intro v hv
      exact ⟨(hho v hv).1, resting_after_set hw (Or.inl rfl) (hho v hv).2⟩
    · intro v hv
      refine ⟨(hss v hv).1, ?_⟩
      rcases (hss v hv).2 with h1 | h1
      · have hne : w ≠ v := by
          intro h
          subst h
          rw [hw] at h1
          cases h1
        exact Or.inl (by simp [List.getElem?_set_ne hne, h1])
      · exact Or.inr h1
    · simp at c1 ⊢; omega
    · simp at c2 ⊢; omega
  · rename_i err hw
    split at hs
    · rename_i hcap
      injection hs with hs; subst hs
      have hrest : (Worker.afterAction b err).resting = true := by
        cases err with
        | none => rfl
        | some e => cases hb : b.errorsSet <;> simp [Worker.afterAction, hb, WorkerState.resting]
      generalize Worker.afterAction b err = r at hrest
      have hnr : r.isRunning = false := by cases r <;> simp_all [WorkerState.resting, WorkerState.isRunning]
      have hnt : r.isReturning = false := by cases r <;> simp_all [WorkerState.resting, WorkerState.isReturning]
      have c1 := countP_set_of_getElem? WorkerState.isRunning r hw
      have c2 := countP_set_of_getElem? WorkerState.isReturning r hw
      rw [hnr] at c1
      rw [hnt] at c2
      simp only [WorkerState.isRunning, WorkerState.isReturning] at c1 c2
      have hwn : ∀ v, (∃ st, s.workers[v]? = some st ∧ st.resting = true) → v ≠ w := by
        intro v hv h
        subst h
        obtain ⟨st, h1, h2⟩ := hv
        rw [hw] at h1
        injection h1 with h1
        subst h1
        cases h2
      refine ⟨@pcInv_frame b s _ rfl (by simp) rfl rfl hpcI, ?_, ?_, ?_, hsn, ?_, ?_, ?_⟩
      · rw [List.nodup_append]
        refine ⟨hrn, List.nodup_singleton _, ?_⟩
        intro a ha hb
        simp at hb
        subst hb
        exact hwn a (hrr a ha) rfl
      · intro v hv
        simp only [List.mem_append, List.mem_singleton] at hv
        rcases hv with hv | rfl
        · exact resting_after_set hw (Or.inl rfl) (hrr v hv)
        · exact ⟨r, by simp [List.getElem?_set, lt_length_of_getElem? hw], hrest⟩
      · intro v hv
        obtain ⟨h1, h2⟩ := hho v hv
        refine ⟨?_, resting_after_set hw (Or.inl rfl) h2⟩
        simp only [List.mem_append, List.mem_singleton, not_or]
        exact ⟨h1, hwn v h2⟩
      · intro v hv
        obtain ⟨h1, h2⟩ := hss v hv
        have hne : v ≠ w := by
          rcases h2 with h2 | h2
          · intro h
            subst h
            rw [hw] at h2
            cases h2
          · exact hwn v (hho v h2).2
        refine ⟨?_, ?_⟩
        · simp only [List.mem_append, List.mem_singleton, not_or]
          exact ⟨h1, hne⟩
        · rcases h2 with h2 | h2
          · exact Or.inl (by simp [List.getElem?_set_ne (Ne.symm hne), h2])
          · exact Or.inr h2
      · simp at c1 ⊢; omega
      · simp at c2 ⊢; omega
    · simp at hs
  · rename_i e hw
    injection hs with hs; subst hs
    have c1 := countP_set_of_getElem? WorkerState.isRunning .waiting hw
    have c2 := countP_set_of_getElem? WorkerState.isReturning .waiting hw
    simp only [WorkerState.isRunning, WorkerState.isReturning] at c1 c2
    refine ⟨@pcInv_frame b s _ rfl (by simp) rfl rfl hpcI, hrn, ?_, ?_, hsn, ?_, ?_, ?_⟩
    · intro v hv
      exact resting_after_set hw (Or.inr rfl) (hrr v hv)
    · intro v hv
      exact ⟨(hho v hv).1, resting_after_set hw (Or.inr rfl) (hho v hv).2⟩
    · intro v hv
      refine ⟨(hss v hv).1, ?_⟩
      rcases (hss v hv).2 with h1 | h1
      · have hne : w ≠ v := by
          intro h
          subst h
          rw [hw] at h1
          cases h1
        exact Or.inl (by simp [List.getElem?_set_ne hne, h1])
      · exact Or.inr h1
    · simp at c1 ⊢; omega
    · simp at c2 ⊢; omega
  · simp at hs

theorem Inv_step {b : Batch} {s t : PoolState} {l : Label} (h : Inv b s)
    (hs : step b s l = some t) : Inv b t := by
  cases l with
  | process takeStop => exact Inv_Process h hs
  | worker w => exact Inv_stepWorker h hs
  | latchOp op =>
    simp only [step, Option.some.injEq] at hs
    subst hs
    exact ⟨@pcInv_frame b s _ rfl rfl rfl rfl h.atPc, h.readyNodup, h.readyResting, h.heldOut,
      h.stopsNodup, h.stopsStopped, h.startedEq, h.returnedEq⟩

theorem Inv_of_steps {b : Batch} {s t : PoolState} (h : Inv b s) (hs : Steps b s t) :
    Inv b t := by
  induction hs with
  | refl => exact h
  | tail l _ hstep ih => exact Inv_step ih hstep

theorem Inv_of_reachable {b : Batch} {s : PoolState} (hs : Reachable b s) : Inv b s :=
  Inv_of_steps (Inv_initial b) hs

theorem handedEq_step {b : Batch} {s t : PoolState} {l : Label}
    (h : s.enqueued.length = s.actionsStarted + s.pc.pendingHandoff)
    (hs : step b s l = some t) :
    t.enqueued.length = t.actionsStarted + t.pc.pendingHandoff := by
  cases l with
  | process takeStop =>
    simp only [step, Batch.Process] at hs
    cases hpc : s.pc <;> simp only [hpc] at hs h <;> (try split at hs) <;> (try split at hs) <;>
      (try split at hs) <;> (try simp at hs) <;> (try subst hs) <;>
      simp_all [Pc.pendingHandoff]
  | worker w =>
    simp only [step, stepWorker, Batch.andReturn] at hs
    split at hs
    · simp at hs
    · cases hpc : s.pc <;> simp only [hpc] at hs h <;> (try split at hs) <;> (try simp at hs) <;>
        (try subst hs) <;> simp_all [Pc.pendingHandoff]
    · simp at hs; subst hs; simpa using h
    · split at hs
      · simp at hs; subst hs; simpa using h
      · simp at hs
    · simp at hs; subst hs; simpa using h
    · simp at hs
  | latchOp op =>
    simp only [step, Option.some.injEq] at hs
    subst hs
    simpa using h


theorem handedEq_of_steps {b : Batch} {s t : PoolState}
    (h : s.enqueued.length = s.actionsStarted + s.pc.pendingHandoff) (hs : Steps b s t) :
    t.enqueued.length = t.actionsStarted + t.pc.pendingHandoff := by
  induction hs with
  | refl => exact h
  | tail l _ hstep ih => exact handedEq_step ih hstep

theorem handedEq_of_reachable {b : Batch} {s : PoolState} (hs : Reachable b s) :
    s.enqueued.length = s.actionsStarted + s.pc.pendingHandoff :=
  @handedEq_of_steps b PoolState.initial s (by decide) hs

theorem workers_length_le {b : Batch} {s : PoolState} (h : Inv b s) :
    s.workers.length ≤ b.numWorkers := by
  have hp := h.atPc
  unfold pcInv at hp
  split at hp <;> omega

theorem ready_length_le {b : Batch} {s : PoolState} (h : Inv b s) :
    s.ready.length ≤ b.numWorkers := by
  have hsub : s.ready ⊆ List.range b.numWorkers := by
    intro w hw
    obtain ⟨st, h1, -⟩ := h.readyResting w hw
    have := lt_length_of_getElem? h1
    have := workers_length_le h
    exact List.mem_range.2 (by omega)
  have := (List.subperm_of_subset h.readyNodup hsub).length_le
  simpa using this

theorem Steps.trans {b : Batch} {s t u : PoolState} (h1 : Steps b s t) (h2 : Steps b t u) :
    Steps b s u := by
  induction h2 with
  | refl => exact h1
  | tail l _ hstep ih => exact Steps.tail l ih hstep

theorem set_eq_self_of_getElem? {α : Type} {l : List α} {i : Nat} {a : α}
    (h : l[i]? = some a) : l.set i a = l := by
  apply List.ext_getElem?
  intro n
  by_cases hn : i = n
  · subst hn
    simp [List.getElem?_set, lt_length_of_getElem? h, h]
  · simp [List.getElem?_set_ne hn]

/-- A run in which no stop notification is taken is a run. -/
theorem NoStopSteps.steps {b : Batch} {s t : PoolState} (h : NoStopSteps b s t) :
    Steps b s t := by
  induction h with
  | refl => exact Steps.refl _
  | tail l _ hstep _ ih => exact Steps.tail l ih hstep

theorem NoStopSteps_append {b : Batch} {s t u : PoolState} (h1 : NoStopSteps b s t)
    (h2 : NoStopSteps b t u) : NoStopSteps b s u := by
  induction h2 with
  | refl => exact h1
  | tail l _ hstep hno ih => exact NoStopSteps.tail l ih hstep hno

theorem reach_creating (b : Batch) (k : Nat) (hk : k ≤ b.numWorkers) :
    ∃ s, NoStopReachable b s ∧ s.pc = .creating k ∧ s.workers = List.replicate k .waiting ∧
      s.ready = List.range k := by
  induction k with
  | zero => exact ⟨PoolState.initial, NoStopSteps.refl _, rfl, rfl, rfl⟩
  | succ k ih =>
    obtain ⟨s, hr, hpc, hW, hready⟩ := ih (by omega)
    refine ⟨{ s with
        workers := s.workers ++ [.waiting], ready := s.ready ++ [k], pc := .creating (k + 1) },
      NoStopSteps.tail (.process false) hr ?_ rfl, rfl, ?_, ?_⟩
    · have h1 : k < b.numWorkers := by omega
      simp [step, Batch.Process, hpc, hready, h1]
    · simp [hW, List.replicate_succ']
    · simp [hready, List.range_succ]

theorem reach_distributing_zero (b : Batch) :
    ∃ s, NoStopReachable b s ∧ s.pc = .distributing 0 ∧
      s.workers = List.replicate b.numWorkers .waiting ∧ s.ready = List.range b.numWorkers := by
  obtain ⟨s, hr, hpc, hW, hready⟩ := reach_creating b b.numWorkers (le_refl _)
  refine ⟨{ s with pc := .distributing 0 }, NoStopSteps.tail (.process false) hr ?_ rfl, rfl, hW, hready⟩
  simp [step, Batch.Process, hpc]

/-- One round of distribution: `Process` takes the worker at the head of the
ready queue and hands it the item, the worker runs the action, re-enters the
ready queue at the back, forwards the failure if there is one and waits
again. -/
theorem distribute_round (b : Batch) (s : PoolState) (k w workItem : Nat) (rest : List Nat)
    (hpc : s.pc = .distributing k) (hitem : b.workItems[k]? = some workItem)
    (hready : s.ready = w :: rest) (hw : s.workers[w]? = some .waiting)
    (hcap : rest.length < b.numWorkers) :
    ∃ t, NoStopSteps b s t ∧ t.pc = .distributing (k + 1) ∧ t.workers = s.workers ∧
      t.ready = rest ++ [w] := by
  have hlt := lt_length_of_getElem? hw
  let s1 : PoolState := { s with
    ready := rest, enqueued := s.enqueued ++ [(w, workItem)], pc := .enqueueing k w workItem }
  have h1 : step b s (.process false) = some s1 := by
    simp [step, Batch.Process, hpc, hitem, hready, s1]
  let s2 : PoolState := { s1 with
    workers := s1.workers.set w (.running workItem), pc := .distributing (k + 1),
    actionsStarted := s1.actionsStarted + 1 }
  have h2 : step b s1 (.worker w) = some s2 := by
    simp [step, stepWorker, Batch.andReturn, Worker.afterAction, s1, s2, hw]
  let s3 : PoolState := { s2 with
    workers := s2.workers.set w (.returning (b.action workItem)),
    actionsReturned := s2.actionsReturned + 1 }
  have h3 : step b s2 (.worker w) = some s3 := by
    simp [step, stepWorker, Batch.andReturn, Worker.afterAction, s1, s2, s3, hlt]
  have hs3 : s3.workers[w]? = some (.returning (b.action workItem)) := by
    simp [s1, s2, s3, hlt]
  have hs3r : s3.ready = rest := rfl
  have hs3pc : s3.pc = .distributing (k + 1) := rfl
  have hs3w : s3.workers.set w .waiting = s.workers := by
    simp [s1, s2, s3, List.set_set, set_eq_self_of_getElem? hw]
  have hs3len : w < s3.workers.length := by simp [s1, s2, s3, hlt]
  have h123 : NoStopSteps b s s3 :=
    NoStopSteps.tail (.worker w)
      (NoStopSteps.tail (.worker w)
        (NoStopSteps.tail (.process false) (NoStopSteps.refl s) h1 rfl) h2 rfl) h3 rfl
  clear_value s3
  cases hact : b.action workItem with
  | none =>
    rw [hact] at hs3
    refine ⟨{ s3 with
        ready := s3.ready ++ [w], pushBacks := s3.pushBacks + 1,
        workers := s3.workers.set w .waiting },
      NoStopSteps.tail (.worker w) h123 ?_ rfl, hs3pc, hs3w, by simp [hs3r]⟩
    simp [step, stepWorker, Batch.andReturn, Worker.afterAction, hs3, hs3r, hcap]
  | some e =>
    rw [hact] at hs3
    cases herr : b.errorsSet with
    | false =>
      refine ⟨{ s3 with
          ready := s3.ready ++ [w], pushBacks := s3.pushBacks + 1,
          workers := s3.workers.set w .waiting },
        NoStopSteps.tail (.worker w) h123 ?_ rfl, hs3pc, hs3w, by simp [hs3r]⟩
      simp [step, stepWorker, Batch.andReturn, Worker.afterAction, hs3, hs3r, hcap, herr]
    | true =>
      let s4 : PoolState := { s3 with
          ready := s3.ready ++ [w], pushBacks := s3.pushBacks + 1,
          workers := s3.workers.set w (.reporting e) }
      have h4 : step b s3 (.worker w) = some s4 := by
        simp [step, stepWorker, Batch.andReturn, Worker.afterAction, hs3, hs3r, hcap, herr, s4]
      refine ⟨{ s4 with errors := s4.errors ++ [e], workers := s4.workers.set w .waiting },
        NoStopSteps.tail (.worker w) (NoStopSteps.tail (.worker w) h123 h4 rfl) ?_ rfl, hs3pc, ?_, by simp [s4, hs3r]⟩
      · simp [step, stepWorker, Batch.andReturn, Worker.afterAction, s4, hs3len]
      · simp [s4, List.set_set, hs3w]


theorem reach_distributing (b : Batch) (hn : 1 ≤ b.numWorkers) (k : Nat)
    (hk : k ≤ b.workItems.length) :
    ∃ s, NoStopReachable b s ∧ s.pc = .distributing k ∧
      s.workers = List.replicate b.numWorkers .waiting ∧ s.ready.length = b.numWorkers ∧
      ∀ w ∈ s.ready, w < b.numWorkers := by
  induction k with
  | zero =>
    obtain ⟨s, hr, hpc, hW, hready⟩ := reach_distributing_zero b
    exact ⟨s, hr, hpc, hW, by simp [hready], by simp [hready]⟩
  | succ k ih =>
    obtain ⟨s, hr, hpc, hW, hlen, hlt⟩ := ih (by omega)
    have hitem : b.workItems[k]? = some (b.workItems[k]) :=
      List.getElem?_eq_getElem (by omega)
    cases hready : s.ready with
    | nil => simp [hready] at hlen; omega
    | cons w rest =>
      have hwlt : w < b.numWorkers := hlt w (by simp [hready])
      have hw : s.workers[w]? = some .waiting := by simp [hW, hwlt]
      have hcap : rest.length < b.numWorkers := by simp [hready] at hlen; omega
      obtain ⟨t, hst, htpc, htW, htready⟩ :=
        distribute_round b s k w _ rest hpc hitem hready hw hcap
      refine ⟨t, NoStopSteps_append hr hst, htpc, htW.trans hW, ?_, ?_⟩
      · simp [htready]
        simp [hready] at hlen
        omega
      · intro v hv
        rw [htready] at hv
        simp only [List.mem_append, List.mem_singleton] at hv
        rcases hv with hv | rfl
        · exact hlt v (by simp [hready, hv])
        · exact hwlt

theorem reach_draining (b : Batch) (hn : 1 ≤ b.numWorkers) (k : Nat) (hk : k ≤ b.numWorkers) :
    ∃ s, NoStopReachable b s ∧ s.pc = .draining k ∧ s.ready.length = b.numWorkers - k ∧
      ∀ w ∈ s.ready, s.workers[w]? = some .waiting := by
  induction k with
  | zero =>
    obtain ⟨s, hr, hpc, hW, hlen, hlt⟩ := reach_distributing b hn b.workItems.length (le_refl _)
    refine ⟨{ s with pc := .draining 0 }, NoStopSteps.tail (.process false) hr ?_ rfl, rfl, by simpa using hlen,
      ?_⟩
    · simp [step, Batch.Process, hpc]
    · intro w hw
      simp [hW, hlt w hw]
  | succ k ih =>
    obtain ⟨s, hr, hpc, hlen, hwait⟩ := ih (by omega)
    have hnodup := (Inv_of_reachable (NoStopSteps.steps hr)).readyNodup
    cases hready : s.ready with
    | nil => simp [hready] at hlen; omega
    | cons w rest =>
      rw [hready] at hnodup hwait
      have hw : s.workers[w]? = some .waiting := hwait w (List.mem_cons_self _ _)
      let s1 : PoolState := { s with
        ready := rest, stops := s.stops ++ [w], pc := .stoppingWorker k w }
      have h1 : step b s (.process false) = some s1 := by
        have hlt : k < b.numWorkers := by omega
        simp [step, Batch.Process, hpc, hready, s1, hlt]
      refine ⟨{ s1 with workers := s1.workers.set w .stopped, pc := .draining (k + 1) },
        NoStopSteps.tail (.worker w) (NoStopSteps.tail (.process false) hr h1 rfl) ?_ rfl, rfl,
        ?_, ?_⟩
      · simp [step, stepWorker, Batch.andReturn, Worker.afterAction, s1, hw]
      · simp [s1]
        simp [hready] at hlen
        omega
      · intro v hv
        have hne : w ≠ v := by
          intro h
          subst h
          exact (List.nodup_cons.1 hnodup).1 hv
        simp [s1, List.getElem?_set_ne hne, hwait v (List.mem_cons_of_mem _ hv)]

/-- With at least one worker `Process` can run to its end without any stop
notification being taken: there is such a schedule on which every item is
handed over, every worker is stopped and `Process` returns. -/
theorem Process_can_return_without_stop (b : Batch) (hn : 1 ≤ b.numWorkers) :
    ∃ s, NoStopReachable b s ∧ s.pc = .returned none := by
  obtain ⟨s, hr, hpc, -, -⟩ := reach_draining b hn b.numWorkers (le_refl _)
  refine ⟨{ s with pc := .returned none }, NoStopSteps.tail (.process false) hr ?_ rfl, rfl⟩
  simp [step, Batch.Process, hpc]

/-- With at least one worker `Process` can run to its end: there is a schedule
on which every item is handed over, every worker is stopped and `Process`
returns. -/
theorem Process_can_return (b : Batch) (hn : 1 ≤ b.numWorkers) :
    ∃ s, Reachable b s ∧ s.pc = .returned none := by
  obtain ⟨s, hr, hpc⟩ := Process_can_return_without_stop b hn
  exact ⟨s, NoStopSteps.steps hr, hpc⟩

theorem Steps_of_run {b : Batch} (ls : List Label) {s t : PoolState}
    (h : run b s ls = some t) : Steps b s t := by
  induction ls generalizing s with
  | nil =>
    simp only [run, Option.some.injEq] at h
    subst h
    exact Steps.refl _
  | cons l ls ih =>
    simp only [run] at h
    cases hstep : step b s l with
    | none => simp [hstep] at h
    | some u =>
      rw [hstep] at h
      exact Steps.trans (Steps.tail l (Steps.refl s) hstep) (ih h)

theorem Reachable_stateAfter {b : Batch} (ls : List Label)
    (h : (run b PoolState.initial ls).isSome = true) : Reachable b (stateAfter b ls) := by
  cases hrun : run b PoolState.initial ls with
  | none => simp [hrun] at h
  | some t =>
    have : stateAfter b ls = t := by simp [stateAfter, hrun]
    rw [this]
    exact Steps_of_run ls hrun

theorem returned_step {b : Batch} {s t : PoolState} {l : Label} {r : Option Nat}
    (hpc : s.pc = .returned r) (hs : step b s l = some t) :
    t.pc = .returned r ∧ t.enqueued = s.enqueued ∧ t.stops = s.stops ∧
      t.actionsStarted = s.actionsStarted := by
  cases l with
  | process takeStop => simp [step, Batch.Process, hpc] at hs
  | worker w =>
    simp only [step, stepWorker, Batch.andReturn, hpc] at hs
    split at hs
    · simp at hs
    · simp at hs
    · simp at hs; subst hs; simp [hpc]
    · split at hs
      · simp at hs; subst hs; simp [hpc]
      · simp at hs
    · simp at hs; subst hs; simp [hpc]
    · simp at hs
  | latchOp op =>
    simp only [step, Option.some.injEq] at hs
    subst hs
    simp [hpc]

theorem returned_steps {b : Batch} {s t : PoolState} {r : Option Nat}
    (hpc : s.pc = .returned r) (hs : Steps b s t) :
    t.pc = .returned r ∧ t.enqueued = s.enqueued ∧ t.stops = s.stops ∧
      t.actionsStarted = s.actionsStarted := by
  induction hs with
  | refl => exact ⟨hpc, rfl, rfl, rfl⟩
  | tail l _ hstep ih =>
    obtain ⟨h1, h2, h3, h4⟩ := ih
    obtain ⟨g1, g2, g3, g4⟩ := returned_step h1 hstep
    exact ⟨g1, g2.trans h2, g3.trans h3, g4.trans h4⟩

theorem handed_prefix {b : Batch} {s : PoolState} (h : Inv b s) :
    s.handed <+: b.workItems := by
  have hp := h.atPc
  unfold pcInv at hp
  unfold PoolState.handed
  split at hp
  · rw [hp.2.2.2]; exact List.nil_prefix
  · rw [hp.2.2.1]; exact List.take_prefix _ _
  · rw [hp.2.2.1]; exact List.take_prefix _ _
  · rw [hp.2.2.2]
  · rw [hp.2.2.2]
  · rw [hp.2.2]
  · rw [hp.2.2.1]; exact List.take_prefix _ _

/-- C7: in every state `Process` passes through, at most `numWorkers` user
action invocations are in progress (the invocations started and not returned
are exactly the worker goroutines inside the user action); the ready queue
holds at most `numWorkers` workers, each at most once and none of them inside
the wrapped action; a worker being handed an item has been taken out of the
ready queue; and the deferred sends completed or pending are exactly the
invocations returned. -/
theorem Process_bounded (b : Batch) (s : PoolState) (hs : Reachable b s) :
    s.inProgress ≤ b.numWorkers ∧
      s.inProgress = s.workers.countP WorkerState.isRunning ∧
      s.ready.length ≤ b.numWorkers ∧ s.ready.Nodup ∧
      (∀ w ∈ s.ready, ∃ st, s.workers[w]? = some st ∧ st.resting = true) ∧
      (∀ x w workItem, s.pc = .enqueueing x w workItem →
        w ∉ s.ready ∧ ∃ st, s.workers[w]? = some st ∧ st.resting = true) ∧
      s.actionsReturned = s.pushBacks + s.workers.countP WorkerState.isReturning := by
  have h := Inv_of_reachable hs
  have hcount : s.inProgress = s.workers.countP WorkerState.isRunning := by
    have := h.startedEq
    simp only [PoolState.inProgress]
    omega
  refine ⟨?_, hcount, ready_length_le h, h.readyNodup, h.readyResting, ?_, h.returnedEq⟩
  · rw [hcount]
    exact le_trans (List.countP_le_length _) (workers_length_le h)
  · intro x w workItem hpc
    exact h.heldOut w (by simp [hpc, Pc.held])

/-- C7 on the example batch, in the state where worker 0 is back in the ready
queue and worker 1 runs its item. -/
theorem Process_bounded_witness :
    Reachable exampleBatch (stateAfter exampleBatch exampleSchedule) ∧
      (stateAfter exampleBatch exampleSchedule).inProgress = 1 ∧
      (stateAfter exampleBatch exampleSchedule).ready = [0] ∧
      ((stateAfter exampleBatch exampleSchedule).inProgress ≤ exampleBatch.numWorkers ∧
        (stateAfter exampleBatch exampleSchedule).inProgress =
          (stateAfter exampleBatch exampleSchedule).workers.countP WorkerState.isRunning ∧
        (stateAfter exampleBatch exampleSchedule).ready.length ≤ exampleBatch.numWorkers ∧
        (stateAfter exampleBatch exampleSchedule).ready.Nodup ∧
        (∀ w ∈ (stateAfter exampleBatch exampleSchedule).ready,
          ∃ st, (stateAfter exampleBatch exampleSchedule).workers[w]? = some st ∧
            st.resting = true) ∧
        (∀ x w workItem,
          (stateAfter exampleBatch exampleSchedule).pc = .enqueueing x w workItem →
            w ∉ (stateAfter exampleBatch exampleSchedule).ready ∧
              ∃ st, (stateAfter exampleBatch exampleSchedule).workers[w]? = some st ∧
                st.resting = true) ∧
        (stateAfter exampleBatch exampleSchedule).actionsReturned =
          (stateAfter exampleBatch exampleSchedule).pushBacks +
            (stateAfter exampleBatch exampleSchedule).workers.countP
              WorkerState.isReturning) :=
  ⟨Reachable_stateAfter _ (by decide), by decide, by decide,
    Process_bounded exampleBatch (stateAfter exampleBatch exampleSchedule)
      (Reachable_stateAfter _ (by decide))⟩

/-- A step that does not take the stop notification does not make `Process`
return early. -/
theorem no_early_return_step {b : Batch} {s t : PoolState} {l : Label}
    (h : ∀ i, s.pc ≠ .returned (some i)) (hs : step b s l = some t)
    (hno : takesStop b s l = false) : ∀ i, t.pc ≠ .returned (some i) := by
  intro i
  cases l with
  | process takeStop =>
    simp only [step, Batch.Process] at hs
    cases hpc : s.pc with
    | creating x =>
      simp only [hpc] at hs
      split at hs
      · split at hs
        · simp at hs; subst hs; simp
        · simp at hs
      · simp at hs; subst hs; simp
    | distributing x =>
      simp only [hpc] at hs
      split at hs
      · rename_i workItem hitem
        split at hs
        · rename_i htake
          simp [takesStop, htake, hpc, hitem] at hno
        · split at hs
          · simp at hs; subst hs; simp
          · simp at hs
      · simp at hs; subst hs; simp
    | enqueueing x w workItem => simp [hpc] at hs
    | draining x =>
      simp only [hpc] at hs
      split at hs
      · split at hs
        · simp at hs; subst hs; simp
        · simp at hs
      · simp at hs; subst hs; simp
    | stoppingWorker x w => simp [hpc] at hs
    | returned r => simp [hpc] at hs
  | worker w =>
    simp only [step, stepWorker, Batch.andReturn] at hs
    split at hs
    · simp at hs
    · split at hs
      · split at hs
        · simp at hs; subst hs; simp
        · simp at hs
      · split at hs
        · simp at hs; subst hs; simp
        · simp at hs
      · simp at hs
    · simp at hs; subst hs; exact h i
    · split at hs
      · simp at hs; subst hs; exact h i
      · simp at hs
    · simp at hs; subst hs; exact h i
    · simp at hs
  | latchOp op =>
    simp only [step, Option.some.injEq] at hs
    subst hs
    exact h i

theorem no_early_return_steps {b : Batch} {s t : PoolState}
    (h : ∀ i, s.pc ≠ .returned (some i)) (hs : NoStopSteps b s t) :
    ∀ i, t.pc ≠ .returned (some i) := by
  induction hs with
  | refl => exact h
  | tail l _ hstep hno ih => exact no_early_return_step ih hstep hno

/-- As long as no stop notification is taken, `Process` does not return before
the end of the function. -/
theorem no_early_return {b : Batch} {s : PoolState} (hs : NoStopReachable b s) :
    ∀ i, s.pc ≠ .returned (some i) :=
  no_early_return_steps (by intro i; simp [PoolState.initial]) hs

/-- At the normal return every worker has been stopped. -/
theorem all_stopped_of_returned {b : Batch} {s : PoolState} (h : Inv b s)
    (hpc : s.pc = .returned none) :
    (∀ w, w ∈ s.stops ↔ w < b.numWorkers) ∧
      ∀ w, w < b.numWorkers → s.workers[w]? = some .stopped := by
  have hp := h.atPc
  simp only [pcInv, hpc] at hp
  obtain ⟨hlen, hslen, -⟩ := hp
  have hst : ∀ w ∈ s.stops, s.workers[w]? = some .stopped := by
    intro w hw
    rcases (h.stopsStopped w hw).2 with h1 | h1
    · exact h1
    · simp [hpc, Pc.held] at h1
  have hsub : s.stops ⊆ List.range b.numWorkers := by
    intro w hw
    have := lt_length_of_getElem? (hst w hw)
    exact List.mem_range.2 (by omega)
  have hperm : s.stops.Perm (List.range b.numWorkers) :=
    (List.subperm_of_subset h.stopsNodup hsub).perm_of_length_le (by simp [hslen])
  have hmem : ∀ w, w ∈ s.stops ↔ w < b.numWorkers := by
    intro w
    rw [hperm.mem_iff, List.mem_range]
  exact ⟨hmem, fun w hw => hst w ((hmem w).2 hw)⟩

/-- C6: whatever the items, the action and its failures, the items handed to
workers are at every moment an initial segment of the input, in input order. As
long as no stop notification is taken `Process` does not return before its end,
and when it has returned the items handed over are exactly the input, each item
handed over once and each handed item's action started and returned. With at
least one worker there is a run with no stop notification taken on which
`Process` returns. -/
theorem Process_hands_every_item (b : Batch) (hn : 1 ≤ b.numWorkers) :
    (∀ s, Reachable b s → s.handed <+: b.workItems) ∧
      (∀ s, NoStopReachable b s → ∀ r, s.pc = .returned r →
        r = none ∧ s.handed = b.workItems ∧ s.enqueued.length = b.workItems.length ∧
          s.actionsStarted = b.workItems.length ∧
          s.actionsReturned = b.workItems.length) ∧
      (∀ s, Reachable b s → s.pc = .returned none →
        s.handed = b.workItems ∧ s.enqueued.length = b.workItems.length ∧
          s.actionsStarted = b.workItems.length ∧
          s.actionsReturned = b.workItems.length) ∧
      ∃ s, NoStopReachable b s ∧ s.pc = .returned none := by
  have hend : ∀ s, Reachable b s → s.pc = .returned none →
      s.handed = b.workItems ∧ s.enqueued.length = b.workItems.length ∧
        s.actionsStarted = b.workItems.length ∧
        s.actionsReturned = b.workItems.length := by
    intro s hs hpc
    have h := Inv_of_reachable hs
    have hp := h.atPc
    simp only [pcInv, hpc] at hp
    have hhand : s.handed = b.workItems := hp.2.2
    have hlen : s.enqueued.length = b.workItems.length := by
      rw [← hhand]; simp [PoolState.handed]
    have hcnt := handedEq_of_reachable hs
    simp only [hpc, Pc.pendingHandoff] at hcnt
    have hrun : s.workers.countP WorkerState.isRunning = 0 := by
      rw [List.countP_eq_zero]
      intro a ha
      obtain ⟨i, hi⟩ := List.mem_iff_getElem?.1 ha
      have hlt := lt_length_of_getElem? hi
      have := (all_stopped_of_returned h hpc).2 i (by omega)
      rw [hi] at this
      injection this with this
      subst this
      simp [WorkerState.isRunning]
    have := h.startedEq
    exact ⟨hhand, hlen, by omega, by omega⟩
  refine ⟨fun s hs => handed_prefix (Inv_of_reachable hs), ?_, hend,
    Process_can_return_without_stop b hn⟩
  intro s hs r hpc
  have hr : r = none := by
    cases r with
    | none => rfl
    | some i => exact absurd hpc (no_early_return hs i)
  subst hr
  exact ⟨rfl, hend s (NoStopSteps.steps hs) hpc⟩

/-- C6 on the example batch, whose action fails on every item. -/
theorem Process_hands_every_item_witness :
    1 ≤ exampleBatch.numWorkers ∧
      ((∀ s, Reachable exampleBatch s → s.handed <+: exampleBatch.workItems) ∧
        (∀ s, NoStopReachable exampleBatch s → ∀ r, s.pc = .returned r →
          r = none ∧ s.handed = exampleBatch.workItems ∧
            s.enqueued.length = exampleBatch.workItems.length ∧
            s.actionsStarted = exampleBatch.workItems.length ∧
            s.actionsReturned = exampleBatch.workItems.length) ∧
        (∀ s, Reachable exampleBatch s → s.pc = .returned none →
          s.handed = exampleBatch.workItems ∧
            s.enqueued.length = exampleBatch.workItems.length ∧
            s.actionsStarted = exampleBatch.workItems.length ∧
            s.actionsReturned = exampleBatch.workItems.length) ∧
        ∃ s, NoStopReachable exampleBatch s ∧ s.pc = .returned none) :=
  ⟨by decide, Process_hands_every_item exampleBatch (by decide)⟩

/-- C8: when `Process` returns at its end, `Stop` has been called exactly
`numWorkers` times, on pairwise distinct workers, so on every worker once; every
worker goroutine has ended, the ready queue is empty and no action invocation
is in progress; and with at least one worker this return can be reached. -/
theorem Process_stops_every_worker (b : Batch) (hn : 1 ≤ b.numWorkers) :
    (∀ s, Reachable b s → s.pc = .returned none →
        s.stops.length = b.numWorkers ∧ s.stops.Nodup ∧
          (∀ w, w ∈ s.stops ↔ w < b.numWorkers) ∧
          (∀ w, w < b.numWorkers → s.workers[w]? = some .stopped) ∧
          s.ready = [] ∧ s.inProgress = 0 ∧
          ∀ t, Steps b s t → t.inProgress = 0 ∧ t.stops = s.stops) ∧
      ∃ s, Reachable b s ∧ s.pc = .returned none := by
  refine ⟨?_, Process_can_return b hn⟩
  intro s hs hpc
  have h := Inv_of_reachable hs
  have hp := h.atPc
  simp only [pcInv, hpc] at hp
  obtain ⟨hmem, hstopped⟩ := all_stopped_of_returned h hpc
  have hzero : ∀ t, Reachable b t → t.pc = .returned none → t.inProgress = 0 := by
    intro t ht htpc
    have hi := Inv_of_reachable ht
    have hrun : t.workers.countP WorkerState.isRunning = 0 := by
      rw [List.countP_eq_zero]
      intro a ha
      obtain ⟨i, hi1⟩ := List.mem_iff_getElem?.1 ha
      have hlt := lt_length_of_getElem? hi1
      have hpt := hi.atPc
      simp only [pcInv, htpc] at hpt
      have := (all_stopped_of_returned hi htpc).2 i (by omega)
      rw [hi1] at this
      injection this with this
      subst this
      simp [WorkerState.isRunning]
    have := hi.startedEq
    simp only [PoolState.inProgress]
    omega
  refine ⟨hp.2.1, h.stopsNodup, hmem, hstopped, ?_, hzero s hs hpc, ?_⟩
  · cases hready : s.ready with
    | nil => rfl
    | cons w rest =>
      obtain ⟨st, h1, h2⟩ := h.readyResting w (by simp [hready])
      have hlt := lt_length_of_getElem? h1
      rw [hstopped w (by omega)] at h1
      injection h1 with h1
      subst h1
      cases h2
  · intro t hst
    obtain ⟨g1, -, g3, -⟩ := returned_steps hpc hst
    exact ⟨hzero t (Steps.trans hs hst) g1, g3⟩

/-- C8 on the example batch. -/
theorem Process_stops_every_worker_witness :
    1 ≤ exampleBatch.numWorkers ∧
      ((∀ s, Reachable exampleBatch s → s.pc = .returned none →
          s.stops.length = exampleBatch.numWorkers ∧ s.stops.Nodup ∧
            (∀ w, w ∈ s.stops ↔ w < exampleBatch.numWorkers) ∧
            (∀ w, w < exampleBatch.numWorkers → s.workers[w]? = some .stopped) ∧
            s.ready = [] ∧ s.inProgress = 0 ∧
            ∀ t, Steps exampleBatch s t → t.inProgress = 0 ∧ t.stops = s.stops) ∧
        ∃ s, Reachable exampleBatch s ∧ s.pc = .returned none) :=
  ⟨by decide, Process_stops_every_worker exampleBatch (by decide)⟩

/-- C9: when `Process` waits to hand over the item at index `i` and takes the
pool latch's stopping notification, it returns in that step: the items handed
to workers are exactly those at the indices below `i`, the pool latch is
stopped, no worker is touched, and in every later state no further item has
been handed to any worker. -/
theorem Process_stop_taken (b : Batch) (s t : PoolState) (i : Nat) (hs : Reachable b s)
    (hpc : s.pc = .distributing i) (hi : i < b.workItems.length)
    (hstep : step b s (.process true) = some t) :
    t.pc = .returned (some i) ∧ t.latch.phase = .stopped ∧
      t.handed = b.workItems.take i ∧ t.enqueued = s.enqueued ∧ t.workers = s.workers ∧
      t.ready = s.ready ∧ t.stops = [] ∧
      ∀ u, Steps b t u → u.pc = .returned (some i) ∧ u.handed = b.workItems.take i := by
  have h := Inv_of_reachable hs
  have hp := h.atPc
  simp only [pcInv, hpc] at hp
  obtain ⟨-, hstops, hhanded, -⟩ := hp
  have hitem : b.workItems[i]? = some (b.workItems[i]) := List.getElem?_eq_getElem hi
  simp only [step, Batch.Process, hpc, hitem, if_true] at hstep
  split at hstep
  · rename_i hphase
    injection hstep with hstep
    subst hstep
    refine ⟨rfl, by simp [Latch.Stopped, hphase], hhanded, rfl, rfl, rfl, hstops, ?_⟩
    intro u hu
    obtain ⟨g1, g2, -, -⟩ := @returned_steps b _ _ (some i) rfl hu
    exact ⟨g1, by simp only [PoolState.handed, g2]; exact hhanded⟩
  · simp at hstep


/-- C9 on the example batch: the stop notification is taken while `Process`
waits to hand over the item at index 1. -/
theorem Process_stop_taken_witness :
    (stateAfter exampleBatch exampleStopSchedule).pc = .distributing 1 ∧
      step exampleBatch (stateAfter exampleBatch exampleStopSchedule) (.process true) =
        some (stateAfter exampleBatch (exampleStopSchedule ++ [.process true])) ∧
      (stateAfter exampleBatch (exampleStopSchedule ++ [.process true])).handed = [1] ∧
      ((stateAfter exampleBatch (exampleStopSchedule ++ [.process true])).pc =
          .returned (some 1) ∧
        (stateAfter exampleBatch (exampleStopSchedule ++ [.process true])).latch.phase =
          .stopped ∧
        (stateAfter exampleBatch (exampleStopSchedule ++ [.process true])).handed =
          exampleBatch.workItems.take 1 ∧
        (stateAfter exampleBatch (exampleStopSchedule ++ [.process true])).enqueued =
          (stateAfter exampleBatch exampleStopSchedule).enqueued ∧
        (stateAfter exampleBatch (exampleStopSchedule ++ [.process true])).workers =
          (stateAfter exampleBatch exampleStopSchedule).workers ∧
        (stateAfter exampleBatch (exampleStopSchedule ++ [.process true])).ready =
          (stateAfter exampleBatch exampleStopSchedule).ready ∧
        (stateAfter exampleBatch (exampleStopSchedule ++ [.process true])).stops = [] ∧
        ∀ u, Steps exampleBatch
            (stateAfter exampleBatch (exampleStopSchedule ++ [.process true])) u →
          u.pc = .returned (some 1) ∧ u.handed = exampleBatch.workItems.take 1) :=
  ⟨by decide, by decide, by decide,
    Process_stop_taken exampleBatch (stateAfter exampleBatch exampleStopSchedule)
      (stateAfter exampleBatch (exampleStopSchedule ++ [.process true])) 1
      (Reachable_stateAfter _ (by decide)) (by decide) (by decide) (by decide)⟩

end Async

namespace Web

open Async

theorem foldl_setHeader_frame (hs : List (String × String)) (w : ResponseWriter) :
    (hs.foldl (fun r kv => r.setHeader kv.1 kv.2) w).wroteHeader = w.wroteHeader ∧
      (hs.foldl (fun r kv => r.setHeader kv.1 kv.2) w).body = w.body ∧
      (hs.foldl (fun r kv => r.setHeader kv.1 kv.2) w).statusCode = w.statusCode := by
  induction hs generalizing w with
  | nil => simp
  | cons kv rest ih =>
    simp only [List.foldl_cons]
    rw [(ih _).1, (ih _).2.1, (ih _).2.2]
    simp [ResponseWriter.setHeader]

theorem reply_status_body (w : ResponseWriter) (code : Nat) (key value msg : String)
    (hw : w.wroteHeader = false) (hb : w.body = "") :
    (((w.WriteHeader code).setHeader key value).Write msg).statusCode = code ∧
      (((w.WriteHeader code).setHeader key value).Write msg).body = msg ∧
      (((w.WriteHeader code).setHeader key value).Write msg).wroteHeader = true := by
  simp [ResponseWriter.Write, ResponseWriter.WriteHeader, ResponseWriter.setHeader, hw, hb]

theorem stringsToLower_healthz : stringsToLower "/healthz" = "/healthz" := by decide


/-- In the stopping phase the handler never consults the hosted process: it
writes the shutting-down reply and marks the latch stopped. -/
theorem healthzHandler_of_stopping (hz : Healthz) (isRunning : Except PanicValue Bool)
    (w : ResponseWriter) (h : hz.latch.phase = .stopping) :
    hz.healthzHandler isRunning w =
      .returned (
        { hz.logIfSet (.debugf "healthz received probe while in process of shutdown") with
          latch := { phase := .stopped } },
        ((w.WriteHeader StatusInternalServerError).setHeader HeaderContentType
          ContentTypeText).Write "Shutting down.\n") := by
  simp [Healthz.healthzHandler, Latch.IsStopping, h, Healthz.logIfSet, Latch.Stopped]

/-- C1: a probe served while the latch is stopping is answered with status 500
and the body "Shutting down." followed by a newline, and leaves the latch
stopped, whatever the hosted process would report (it is not even asked). -/
theorem healthzHandler_stopping (hz : Healthz) (isRunning : Except PanicValue Bool)
    (w : ResponseWriter) (hw : w.wroteHeader = false) (hb : w.body = "")
    (h : hz.latch.phase = .stopping) :
    (∃ st, hz.healthzHandler isRunning w = .returned st) ∧
      (hz.healthzHandler isRunning w).state.2.statusCode = 500 ∧
      (hz.healthzHandler isRunning w).state.2.body = "Shutting down.\n" ∧
      (hz.healthzHandler isRunning w).state.1.latch.phase = .stopped ∧
      (hz.healthzHandler isRunning w).state.1.calls = hz.calls := by
  rw [healthzHandler_of_stopping hz isRunning w h]
  refine ⟨⟨_, rfl⟩, ?_, ?_, ?_, ?_⟩
  · simp [Outcome.state, ResponseWriter.Write, ResponseWriter.WriteHeader,
      ResponseWriter.setHeader, hw, StatusInternalServerError]
  · simp [Outcome.state, ResponseWriter.Write, ResponseWriter.WriteHeader,
      ResponseWriter.setHeader, hw, hb]
  · simp [Outcome.state]
  · simp [Outcome.state, Healthz.logIfSet]

/-- C1 at a concrete coordinator: latch stopping, hosted process reporting that
it runs, fresh response writer. -/
theorem healthzHandler_stopping_witness :
    (∃ st, Healthz.healthzHandler { NewHealthz 30 with latch := { phase := .stopping } }
        (.ok true) ResponseWriter.fresh = .returned st) ∧
      (Healthz.healthzHandler { NewHealthz 30 with latch := { phase := .stopping } }
        (.ok true) ResponseWriter.fresh).state.2.statusCode = 500 ∧
      (Healthz.healthzHandler { NewHealthz 30 with latch := { phase := .stopping } }
        (.ok true) ResponseWriter.fresh).state.2.body = "Shutting down.\n" ∧
      (Healthz.healthzHandler { NewHealthz 30 with latch := { phase := .stopping } }
        (.ok true) ResponseWriter.fresh).state.1.latch.phase = .stopped ∧
      (Healthz.healthzHandler { NewHealthz 30 with latch := { phase := .stopping } }
        (.ok true) ResponseWriter.fresh).state.1.calls = [] :=
  healthzHandler_stopping _ _ _ rfl rfl rfl

/-- Outside the stopping phase the handler asks the hosted process and answers
by what it reports, without touching the latch. -/
theorem healthzHandler_of_not_stopping (hz : Healthz) (b : Bool) (w : ResponseWriter)
    (h : hz.latch.phase ≠ .stopping) :
    hz.healthzHandler (.ok b) w =
      .returned (hz.invoke .hostedIsRunning,
        if b then
          ((w.WriteHeader StatusOK).setHeader HeaderContentType ContentTypeText).Write "OK!\n"
        else
          ((w.WriteHeader StatusInternalServerError).setHeader HeaderContentType
            ContentTypeText).Write "Failure!\n") := by
  cases b <;> simp [Healthz.healthzHandler, Latch.IsStopping, h]

/-- C2: a probe served while the latch is not stopping returns; it is answered
with status 200 and body "OK!" plus newline exactly when the hosted process
reports that it runs, otherwise with status 500 and body "Failure!" plus
newline; the latch keeps its phase. -/
theorem healthzHandler_not_stopping (hz : Healthz) (b : Bool) (w : ResponseWriter)
    (hw : w.wroteHeader = false) (hb : w.body = "") (h : hz.latch.phase ≠ .stopping) :
    (∃ st, hz.healthzHandler (.ok b) w = .returned st) ∧
      (((hz.healthzHandler (.ok b) w).state.2.statusCode = 200 ∧
          (hz.healthzHandler (.ok b) w).state.2.body = "OK!\n") ↔ b = true) ∧
      (b = false →
        (hz.healthzHandler (.ok b) w).state.2.statusCode = 500 ∧
          (hz.healthzHandler (.ok b) w).state.2.body = "Failure!\n") ∧
      (hz.healthzHandler (.ok b) w).state.1.latch = hz.latch := by
  rw [healthzHandler_of_not_stopping hz b w h]
  cases b <;>
    simp [Outcome.state, ResponseWriter.Write, ResponseWriter.WriteHeader,
      ResponseWriter.setHeader, hw, hb, StatusOK, StatusInternalServerError, Healthz.invoke]

/-- C2 at a concrete coordinator: latch started, hosted process running. -/
theorem healthzHandler_not_stopping_witness :
    (∃ st, Healthz.healthzHandler ((NewHealthz 30).Start none none 0).1 (.ok true)
        ResponseWriter.fresh = .returned st) ∧
      (((Healthz.healthzHandler ((NewHealthz 30).Start none none 0).1 (.ok true)
            ResponseWriter.fresh).state.2.statusCode = 200 ∧
          (Healthz.healthzHandler ((NewHealthz 30).Start none none 0).1 (.ok true)
            ResponseWriter.fresh).state.2.body = "OK!\n") ↔ true = true) ∧
      (true = false →
        (Healthz.healthzHandler ((NewHealthz 30).Start none none 0).1 (.ok true)
            ResponseWriter.fresh).state.2.statusCode = 500 ∧
          (Healthz.healthzHandler ((NewHealthz 30).Start none none 0).1 (.ok true)
            ResponseWriter.fresh).state.2.body = "Failure!\n") ∧
      (Healthz.healthzHandler ((NewHealthz 30).Start none none 0).1 (.ok true)
          ResponseWriter.fresh).state.1.latch = ((NewHealthz 30).Start none none 0).1.latch :=
  healthzHandler_not_stopping _ true _ rfl rfl (by decide)

/-- C3: when the hosted process's shutdown notification wins the race,
`Shutdown` never invokes `hosted.Shutdown`, invokes the front door's `Shutdown`
exactly once and returns that call's result. -/
theorem Shutdown_hosted_notification (hz : Healthz) (env : ShutdownEnv)
    (h : env.winner = .hostedNotifyShutdown) :
    (callsDuring hz (hz.Shutdown env).1).count .hostedShutdown = 0 ∧
      (callsDuring hz (hz.Shutdown env).1).count .selfShutdown = 1 ∧
      callsDuring hz (hz.Shutdown env).1 = [.hostedNotifyShutdown, .selfShutdown] ∧
      (hz.Shutdown env).2 = env.selfShutdownErr := by
  have hc : callsDuring hz (hz.Shutdown env).1 = [.hostedNotifyShutdown, .selfShutdown] := by
    simp [callsDuring, Healthz.Shutdown, h, Healthz.invoke, Healthz.enterStopping,
      Healthz.logIfSet]
  refine ⟨?_, ?_, hc, ?_⟩
  · rw [hc]; decide
  · rw [hc]; decide
  · simp [Healthz.Shutdown, h]

/-- C3 at a concrete coordinator whose two `Shutdown` methods return different
errors. -/
theorem Shutdown_hosted_notification_witness :
    (callsDuring ((NewHealthz 30).Start none none 0).1
        (Healthz.Shutdown ((NewHealthz 30).Start none none 0).1
          ⟨.hostedNotifyShutdown, some "hosted", some "self", 0⟩).1).count .hostedShutdown = 0 ∧
      (callsDuring ((NewHealthz 30).Start none none 0).1
        (Healthz.Shutdown ((NewHealthz 30).Start none none 0).1
          ⟨.hostedNotifyShutdown, some "hosted", some "self", 0⟩).1).count .selfShutdown = 1 ∧
      callsDuring ((NewHealthz 30).Start none none 0).1
        (Healthz.Shutdown ((NewHealthz 30).Start none none 0).1
          ⟨.hostedNotifyShutdown, some "hosted", some "self", 0⟩).1 =
        [.hostedNotifyShutdown, .selfShutdown] ∧
      (Healthz.Shutdown ((NewHealthz 30).Start none none 0).1
          ⟨.hostedNotifyShutdown, some "hosted", some "self", 0⟩).2 = some "self" :=
  Shutdown_hosted_notification _ ⟨.hostedNotifyShutdown, some "hosted", some "self", 0⟩ rfl

/-- C4: when the grace period deadline or the latch's stopped signal wins the
race, `Shutdown` invokes `hosted.Shutdown` exactly once and the front door's
`Shutdown` exactly once, and nothing else is torn down. -/
theorem Shutdown_both_servers (hz : Healthz) (env : ShutdownEnv)
    (h : env.winner = .contextDone ∨ env.winner = .latchNotifyStopped) :
    (callsDuring hz (hz.Shutdown env).1).count .hostedShutdown = 1 ∧
      (callsDuring hz (hz.Shutdown env).1).count .selfShutdown = 1 ∧
      callsDuring hz (hz.Shutdown env).1 =
        [.hostedNotifyShutdown, .hostedShutdown, .selfShutdown] := by
  have hc : callsDuring hz (hz.Shutdown env).1 =
      [.hostedNotifyShutdown, .hostedShutdown, .selfShutdown] := by
    rcases h with h | h <;>
      simp [callsDuring, Healthz.Shutdown, h, Healthz.invoke, Healthz.enterStopping,
        Healthz.logIfSet, Healthz.shutdownServers, RunToError]
  refine ⟨?_, ?_, hc⟩
  · rw [hc]; decide
  · rw [hc]; decide

/-- C4 at a concrete coordinator whose grace period expires. -/
theorem Shutdown_both_servers_witness :
    (callsDuring ((NewHealthz 30).Start none none 0).1
        (Healthz.Shutdown ((NewHealthz 30).Start none none 0).1
          ⟨.contextDone, none, none, 1⟩).1).count .hostedShutdown = 1 ∧
      (callsDuring ((NewHealthz 30).Start none none 0).1
        (Healthz.Shutdown ((NewHealthz 30).Start none none 0).1
          ⟨.contextDone, none, none, 1⟩).1).count .selfShutdown = 1 ∧
      callsDuring ((NewHealthz 30).Start none none 0).1
        (Healthz.Shutdown ((NewHealthz 30).Start none none 0).1
          ⟨.contextDone, none, none, 1⟩).1 =
        [.hostedNotifyShutdown, .hostedShutdown, .selfShutdown] :=
  Shutdown_both_servers _ ⟨.contextDone, none, none, 1⟩ (Or.inl rfl)

theorem ServeHTTP_probe_stopping (hz : Healthz) (env : RequestEnv)
    (hp : env.path = "/healthz") (h : hz.latch.phase = .stopping) :
    (hz.ServeHTTP env ResponseWriter.fresh).state.2.statusCode = 500 ∧
      (hz.ServeHTTP env ResponseWriter.fresh).state.2.body = "Shutting down.\n" ∧
      (hz.ServeHTTP env ResponseWriter.fresh).state.1.latch.phase = .stopped ∧
      (hz.ServeHTTP env ResponseWriter.fresh).state.1.recoverPanics = hz.recoverPanics := by
  have hl : (hz.logIfSet (.httpRequest "/healthz")).latch.phase = .stopping := by
    simpa [Healthz.logIfSet] using h
  obtain ⟨f1, f2, -⟩ := foldl_setHeader_frame hz.defaultHeaders
    (ResponseWriter.fresh.setHeader HeaderContentEncoding ContentEncodingIdentity)
  simp only [Healthz.ServeHTTP, Healthz.serveRoute, hp, stringsToLower_healthz, if_true,
    healthzHandler_of_stopping _ _ _ hl, Outcome.state]
  generalize List.foldl (fun r kv => r.setHeader kv.1 kv.2)
    (ResponseWriter.fresh.setHeader HeaderContentEncoding ContentEncodingIdentity)
    hz.defaultHeaders = w0 at f1 f2
  have hw0 : w0.wroteHeader = false := by rw [f1]; rfl
  have hb0 : w0.body = "" := by rw [f2]; rfl
  obtain ⟨r1, r2, -⟩ := reply_status_body w0 StatusInternalServerError HeaderContentType
    ContentTypeText "Shutting down.\n" hw0 hb0
  refine ⟨r1, r2, ?_, ?_⟩
  · cases env.closeErr with
    | none => simp [Healthz.logIfSet]
    | some c => cases c <;> simp [Healthz.logIfSet]
  · cases env.closeErr with
    | none => simp [Healthz.logIfSet]
    | some c => cases c <;> simp [Healthz.logIfSet]

theorem httpError_status_body (w : ResponseWriter) (msg : String) (code : Nat)
    (hw : w.wroteHeader = false) (hb : w.body = "") :
    (httpError w msg code).statusCode = code ∧ (httpError w msg code).body = msg ++ "\n" := by
  simp [httpError, ResponseWriter.Write, ResponseWriter.WriteHeader, ResponseWriter.setHeader,
    hw, hb]

theorem ServeHTTP_probe_not_stopping (hz : Healthz) (env : RequestEnv)
    (hp : env.path = "/healthz") (h : hz.latch.phase ≠ .stopping) :
    ((hz.ServeHTTP env ResponseWriter.fresh).state.2.statusCode = 200 ↔
        env.isRunning = .ok true) ∧
      (hz.ServeHTTP env ResponseWriter.fresh).state.1.latch = hz.latch := by
  have hl : (hz.logIfSet (.httpRequest "/healthz")).latch.phase ≠ .stopping := by
    simpa [Healthz.logIfSet] using h
  obtain ⟨f1, f2, f3⟩ := foldl_setHeader_frame hz.defaultHeaders
    (ResponseWriter.fresh.setHeader HeaderContentEncoding ContentEncodingIdentity)
  simp only [Healthz.ServeHTTP, Healthz.serveRoute, hp, stringsToLower_healthz, if_true]
  generalize List.foldl (fun r kv => r.setHeader kv.1 kv.2)
    (ResponseWriter.fresh.setHeader HeaderContentEncoding ContentEncodingIdentity)
    hz.defaultHeaders = w0 at f1 f2 f3
  have hw0 : w0.wroteHeader = false := by rw [f1]; rfl
  have hb0 : w0.body = "" := by rw [f2]; rfl
  have hs0 : w0.statusCode = 0 := by rw [f3]; rfl
  cases hr : env.isRunning with
  | ok b =>
    rw [healthzHandler_of_not_stopping _ b w0 hl]
    simp only [Outcome.state]
    constructor
    · cases b with
      | true =>
        have r := (reply_status_body w0 200 HeaderContentType ContentTypeText "OK!\n" hw0 hb0).1
        simp [r, StatusOK]
      | false =>
        have r := (reply_status_body w0 500 HeaderContentType ContentTypeText "Failure!\n" hw0
          hb0).1
        simp [r, StatusInternalServerError]
    · cases env.closeErr with
      | none => simp [Healthz.logIfSet, Healthz.invoke]
      | some c => cases c <;> simp [Healthz.logIfSet, Healthz.invoke]
  | error v =>
    have hh : (hz.logIfSet (.httpRequest "/healthz")).healthzHandler (.error v) w0 =
        .panicked v ((hz.logIfSet (.httpRequest "/healthz")).invoke .hostedIsRunning, w0) := by
      simp [Healthz.healthzHandler, Latch.IsStopping, hl]
    rw [hh]
    cases hrp : hz.recoverPanics with
    | true =>
      have r := (httpError_status_body w0 (sprintfV v) 500 hw0 hb0).1
      simp [Outcome.state, Healthz.recover, r, StatusInternalServerError, Healthz.logIfSet,
        Healthz.invoke]
    | false =>
      simp [Outcome.state, hs0, Healthz.logIfSet, Healthz.invoke]

theorem serveAll_not_stopping (envs : List RequestEnv) (hz : Healthz)
    (hp : ∀ e ∈ envs, e.path = "/healthz") (h : hz.latch.phase ≠ .stopping) :
    List.Forall₂ (fun e w => (w.statusCode = 200 ↔ e.isRunning = .ok true)) envs
      (hz.serveAll envs).2 := by
  induction envs generalizing hz with
  | nil => exact List.Forall₂.nil
  | cons e rest ih =>
    obtain ⟨h1, h2⟩ := ServeHTTP_probe_not_stopping hz e (hp e (List.mem_cons_self _ _)) h
    simp only [Healthz.serveAll]
    refine List.Forall₂.cons h1 (ih _ (fun r hr => hp r (List.mem_cons_of_mem _ hr)) ?_)
    rw [h2]; exact h

/-- C5 as stated fails: after `Shutdown` has moved the latch of a started
coordinator into stopping, two probes are served while the hosted process
reports that it runs; the first is answered 500, the second 200. -/
theorem probes_after_stopping_second_ok :
    ((NewHealthz 30).Start none none 0).1.enterStopping.latch.phase = .stopping ∧
      ((((NewHealthz 30).Start none none 0).1.enterStopping.serveAll
          [⟨"/healthz", .ok true, none⟩, ⟨"/healthz", .ok true, none⟩]).2.map
        ResponseWriter.statusCode) = [500, 200] := by
  decide

/-- Probes served while the latch is not stopping leave the latch alone. -/
theorem serveAll_latch_not_stopping (envs : List RequestEnv) (hz : Healthz)
    (hp : ∀ e ∈ envs, e.path = "/healthz") (h : hz.latch.phase ≠ .stopping) :
    (hz.serveAll envs).1.latch = hz.latch := by
  induction envs generalizing hz with
  | nil => rfl
  | cons e rest ih =>
    obtain ⟨-, h2⟩ := ServeHTTP_probe_not_stopping hz e (hp e (List.mem_cons_self _ _)) h
    simp only [Healthz.serveAll]
    rw [ih _ (fun r hr => hp r (List.mem_cons_of_mem _ hr)) (by rw [h2]; exact h), h2]

/-- C5 (amended): once the latch is in stopping, the next probe is answered with
status 500 and the shutting-down body, and serving it moves the latch to
stopped, where it stays while later probes are served; every later probe is
answered with status 200 exactly when the hosted process reports that it
runs. -/
theorem serveAll_after_stopping (hz : Healthz) (e : RequestEnv) (rest : List RequestEnv)
    (h : hz.latch.phase = .stopping) (hp : e.path = "/healthz")
    (hrest : ∀ r ∈ rest, r.path = "/healthz") :
    (hz.serveAll (e :: rest)).2.head?.map ResponseWriter.statusCode = some 500 ∧
      (hz.serveAll (e :: rest)).2.head?.map ResponseWriter.body = some "Shutting down.\n" ∧
      (hz.ServeHTTP e ResponseWriter.fresh).state.1.latch.phase = .stopped ∧
      (hz.serveAll (e :: rest)).1.latch.phase = .stopped ∧
      List.Forall₂ (fun r w => (w.statusCode = 200 ↔ r.isRunning = .ok true)) rest
        (hz.serveAll (e :: rest)).2.tail := by
  obtain ⟨h1, h2, h3, -⟩ := ServeHTTP_probe_stopping hz e hp h
  have hns : (hz.ServeHTTP e ResponseWriter.fresh).state.1.latch.phase ≠ .stopping := by
    rw [h3]; decide
  simp only [Healthz.serveAll, List.head?_cons, Option.map_some', List.tail_cons]
  refine ⟨by rw [h1], by rw [h2], h3, ?_, serveAll_not_stopping rest _ hrest hns⟩
  rw [serveAll_latch_not_stopping rest _ hrest hns]
  exact h3

/-- C5 (amended) at a concrete coordinator: three probes after `Shutdown` has
entered stopping, the hosted process running for the first two. -/
theorem serveAll_after_stopping_witness :
    (Healthz.serveAll ((NewHealthz 30).Start none none 0).1.enterStopping
        (⟨"/healthz", .ok true, none⟩ ::
          [⟨"/healthz", .ok true, none⟩, ⟨"/healthz", .ok false, none⟩])).2.head?.map
        ResponseWriter.statusCode = some 500 ∧
      (Healthz.serveAll ((NewHealthz 30).Start none none 0).1.enterStopping
        (⟨"/healthz", .ok true, none⟩ ::
          [⟨"/healthz", .ok true, none⟩, ⟨"/healthz", .ok false, none⟩])).2.head?.map
        ResponseWriter.body = some "Shutting down.\n" ∧
      (Healthz.ServeHTTP ((NewHealthz 30).Start none none 0).1.enterStopping
        ⟨"/healthz", .ok true, none⟩ ResponseWriter.fresh).state.1.latch.phase = .stopped ∧
      (Healthz.serveAll ((NewHealthz 30).Start none none 0).1.enterStopping
        (⟨"/healthz", .ok true, none⟩ ::
          [⟨"/healthz", .ok true, none⟩, ⟨"/healthz", .ok false, none⟩])).1.latch.phase =
        .stopped ∧
      List.Forall₂ (fun r w => (w.statusCode = 200 ↔ r.isRunning = .ok true))
        [(⟨"/healthz", .ok true, none⟩ : RequestEnv), ⟨"/healthz", .ok false, none⟩]
        (Healthz.serveAll ((NewHealthz 30).Start none none 0).1.enterStopping
          (⟨"/healthz", .ok true, none⟩ ::
            [⟨"/healthz", .ok true, none⟩, ⟨"/healthz", .ok false, none⟩])).2.tail :=
  serveAll_after_stopping _ ⟨"/healthz", .ok true, none⟩
    [⟨"/healthz", .ok true, none⟩, ⟨"/healthz", .ok false, none⟩] rfl rfl
    (by intro r hr; simp at hr; rcases hr with rfl | rfl <;> rfl)

/-- The body of `ServeHTTP` panics only where the hosted process is asked
whether it runs, before anything is written: the state at the panic has the
writer's status line and body untouched, and the log holds the request and
response events when a logger is set. -/
theorem serveRoute_panicked (hz : Healthz) (env : RequestEnv) (w : ResponseWriter)
    (v : PanicValue) (st : Healthz × ResponseWriter)
    (hp : hz.serveRoute env w = .panicked v st) :
    st.2.wroteHeader = w.wroteHeader ∧ st.2.body = w.body ∧
      st.1.log = hz.log.map (fun evs => evs ++
        [.httpRequest (stringsToLower env.path), .httpResponse w.statusCode w.body.utf8ByteSize]) ∧
      env.isRunning = .error v := by
  obtain ⟨f1, f2, f3⟩ := foldl_setHeader_frame hz.defaultHeaders
    (w.setHeader HeaderContentEncoding ContentEncodingIdentity)
  simp only [Healthz.serveRoute] at hp
  generalize List.foldl (fun r kv => r.setHeader kv.1 kv.2)
    (w.setHeader HeaderContentEncoding ContentEncodingIdentity)
    hz.defaultHeaders = w0 at f1 f2 f3 hp
  have hw0 : w0.wroteHeader = w.wroteHeader := by rw [f1]; rfl
  have hb0 : w0.body = w.body := by rw [f2]; rfl
  have hs0 : w0.statusCode = w.statusCode := by rw [f3]; rfl
  by_cases hroute : stringsToLower env.path = "/healthz"
  · simp only [hroute, if_true] at hp
    by_cases hst : (hz.logIfSet (.httpRequest "/healthz")).latch.phase = .stopping
    · rw [healthzHandler_of_stopping _ _ _ hst] at hp
      simp at hp
    · cases hr : env.isRunning with
      | ok b =>
        rw [hr, healthzHandler_of_not_stopping _ b w0 hst] at hp
        simp at hp
      | error u =>
        rw [hr] at hp
        simp only [Healthz.healthzHandler, Latch.IsStopping, hst, decide_False] at hp
        simp only [Bool.false_eq_true, if_false, Outcome.panicked.injEq] at hp
        obtain ⟨rfl, rfl⟩ := hp
        refine ⟨hw0, hb0, ?_, rfl⟩
        rw [hs0, hb0]
        cases hlog : hz.log <;> simp [Healthz.logIfSet, Healthz.invoke, hlog, hroute]
  · simp [hroute] at hp

/-- What `http.Error` leaves on a writer, whatever was written before: the
status of the call unless a header was already sent, and the message and a
newline after the body so far. -/
theorem httpError_general (w : ResponseWriter) (msg : String) (code : Nat) :
    (httpError w msg code).statusCode = (if w.wroteHeader then w.statusCode else code) ∧
      (httpError w msg code).body = w.body ++ (msg ++ "\n") := by
  cases hw : w.wroteHeader <;>
    simp [httpError, ResponseWriter.Write, ResponseWriter.WriteHeader,
      ResponseWriter.setHeader, hw]

/-- A panic raised once the OK reply has been written is recovered, but the
status line already sent stays: `http.Error` only appends to the body. -/
theorem deferRecover_after_reply :
    (Healthz.deferRecover ((NewHealthz 30).WithRecoverPanics true)
        (.panicked (.str "boom")
          (((NewHealthz 30).WithRecoverPanics true).healthzHandler (.ok true)
            ResponseWriter.fresh).state)).state.2.statusCode = 200 ∧
      (Healthz.deferRecover ((NewHealthz 30).WithRecoverPanics true)
        (.panicked (.str "boom")
          (((NewHealthz 30).WithRecoverPanics true).healthzHandler (.ok true)
            ResponseWriter.fresh).state)).state.2.body = "OK!\nboom\n" := by
  decide

/-- C10 as stated fails: the hosted process panics with the string "boom" while
a coordinator with `recoverPanics` serves a probe; the panic is recovered and
the status is 500, but the body is "boom" followed by a newline, which is not
the formatting of the value. -/
theorem ServeHTTP_panic_body :
    sprintfV (.str "boom") = "boom" ∧
      (Healthz.ServeHTTP (((NewHealthz 30).Start none none 0).1.WithRecoverPanics true)
          ⟨"/healthz", .error (.str "boom"), none⟩ ResponseWriter.fresh).state.2.statusCode
        = 500 ∧
      (Healthz.ServeHTTP (((NewHealthz 30).Start none none 0).1.WithRecoverPanics true)
          ⟨"/healthz", .error (.str "boom"), none⟩ ResponseWriter.fresh).state.2.body
        = "boom\n" ∧
      (Healthz.ServeHTTP (((NewHealthz 30).Start none none 0).1.WithRecoverPanics true)
          ⟨"/healthz", .error (.str "boom"), none⟩ ResponseWriter.fresh).state.2.body
        ≠ sprintfV (.str "boom") := by
  decide

/-- C10 (amended): `ServeHTTP` is its body under the deferred `recover`. When
the body panics with value `v`, at whatever point, then with `recoverPanics`
set the call returns normally, `v` is reported to the logger when one is set,
and `http.Error` has put the formatting of `v` and a newline after the body
written so far, with status 500 unless a header had already been sent; with
`recoverPanics` unset the panic goes on. The body as embedded panics only in
`hosted.IsRunning()`, before anything is written: then the response has status
500 and as body the formatting of `v` followed by a newline. -/
theorem ServeHTTP_panic (hz : Healthz) (env : RequestEnv) (w : ResponseWriter)
    (v : PanicValue) (st : Healthz × ResponseWriter) :
    hz.ServeHTTP env w = hz.deferRecover (hz.serveRoute env w) ∧
      (hz.recoverPanics = true →
        hz.deferRecover (.panicked v st) =
            .returned (st.1.logIfSet (.fatalf (sprintfV v)),
              httpError st.2 (sprintfV v) StatusInternalServerError) ∧
          (hz.deferRecover (.panicked v st)).state.2.body =
            st.2.body ++ (sprintfV v ++ "\n") ∧
          (st.2.wroteHeader = false →
            (hz.deferRecover (.panicked v st)).state.2.statusCode = 500) ∧
          (st.2.wroteHeader = true →
            (hz.deferRecover (.panicked v st)).state.2.statusCode = st.2.statusCode) ∧
          (hz.deferRecover (.panicked v st)).state.1.log =
            st.1.log.map (fun evs => evs ++ [.fatalf (sprintfV v)])) ∧
      (hz.recoverPanics = false → hz.deferRecover (.panicked v st) = .panicked v st) ∧
      (w.wroteHeader = false → w.body = "" → hz.serveRoute env w = .panicked v st →
        env.isRunning = .error v ∧
          (hz.recoverPanics = true →
            (∃ st1, hz.ServeHTTP env w = .returned st1) ∧
              (hz.ServeHTTP env w).state.2.statusCode = 500 ∧
              (hz.ServeHTTP env w).state.2.body = sprintfV v ++ "\n" ∧
              (hz.ServeHTTP env w).state.1.log =
                st.1.log.map (fun evs => evs ++ [.fatalf (sprintfV v)]) ∧
              ((hz.ServeHTTP env w).state.1.log = none ↔ hz.log = none)) ∧
          (hz.recoverPanics = false → hz.ServeHTTP env w = .panicked v st)) := by
  have hdef : hz.ServeHTTP env w = hz.deferRecover (hz.serveRoute env w) := by
    simp only [Healthz.ServeHTTP, Healthz.deferRecover]
  obtain ⟨g1, g2⟩ := httpError_general st.2 (sprintfV v) 500
  refine ⟨hdef, ?_, ?_, ?_⟩
  · intro hrec
    have heq : hz.deferRecover (.panicked v st) =
        .returned (st.1.logIfSet (.fatalf (sprintfV v)),
          httpError st.2 (sprintfV v) StatusInternalServerError) := by
      simp [Healthz.deferRecover, hrec, Healthz.recover]
    rw [heq]
    refine ⟨rfl, ?_, ?_, ?_, ?_⟩
    · simpa [Outcome.state, StatusInternalServerError] using g2
    · intro hw
      simpa [Outcome.state, StatusInternalServerError, hw] using g1
    · intro hw
      simpa [Outcome.state, StatusInternalServerError, hw] using g1
    · simp [Outcome.state, Healthz.logIfSet]
  · intro hrec
    simp [Healthz.deferRecover, hrec]
  · intro hw hb hp
    obtain ⟨p1, p2, p3, p4⟩ := serveRoute_panicked hz env w v st hp
    obtain ⟨e1, e2⟩ := httpError_status_body st.2 (sprintfV v) 500 (p1.trans hw) (p2.trans hb)
    refine ⟨p4, ?_, ?_⟩
    · intro hrec
      simp only [Healthz.ServeHTTP, hp, hrec, if_true, Outcome.state, Healthz.recover,
        StatusInternalServerError]
      refine ⟨⟨_, rfl⟩, e1, e2, by simp [Healthz.logIfSet], ?_⟩
      cases hlog : hz.log <;> simp [Healthz.logIfSet, p3, hlog]
    · intro hrec
      simp [Healthz.ServeHTTP, hp, hrec]

/-- C10 (amended) at a concrete request: the hosted process panics with the
string "boom" while a started coordinator with a logger and `recoverPanics`
serves a probe. -/
theorem ServeHTTP_panic_witness :
    Healthz.serveRoute
        ((((NewHealthz 30).Start none none 0).1.WithRecoverPanics true).WithLogger (some []))
        ⟨"/healthz", .error (.str "boom"), none⟩ ResponseWriter.fresh =
      .panicked (.str "boom")
        ({ (((NewHealthz 30).Start none none 0).1.WithRecoverPanics true) with
            log := some [.httpRequest "/healthz", .httpResponse 0 0],
            calls := [.selfStart, .hostedStart, .hostedIsRunning] },
          ResponseWriter.fresh.setHeader HeaderContentEncoding ContentEncodingIdentity) ∧
      (Healthz.ServeHTTP
          ((((NewHealthz 30).Start none none 0).1.WithRecoverPanics true).WithLogger (some []))
          ⟨"/healthz", .error (.str "boom"), none⟩ ResponseWriter.fresh).state.2.statusCode
        = 500 ∧
      (Healthz.ServeHTTP
          ((((NewHealthz 30).Start none none 0).1.WithRecoverPanics true).WithLogger (some []))
          ⟨"/healthz", .error (.str "boom"), none⟩ ResponseWriter.fresh).state.2.body
        = "boom\n" ∧
      (Healthz.ServeHTTP
          ((((NewHealthz 30).Start none none 0).1.WithRecoverPanics true).WithLogger (some []))
          ⟨"/healthz", .error (.str "boom"), none⟩ ResponseWriter.fresh).state.1.log
        = some [.httpRequest "/healthz", .httpResponse 0 0, .fatalf "boom"] :=
  ⟨by decide,
    (((ServeHTTP_panic
      ((((NewHealthz 30).Start none none 0).1.WithRecoverPanics true).WithLogger (some []))
      ⟨"/healthz", .error (.str "boom"), none⟩ ResponseWriter.fresh (.str "boom")
      _).2.2.2 rfl rfl rfl).2.1 rfl).2.1,
    (((ServeHTTP_panic
      ((((NewHealthz 30).Start none none 0).1.WithRecoverPanics true).WithLogger (some []))
      ⟨"/healthz", .error (.str "boom"), none⟩ ResponseWriter.fresh (.str "boom")
      _).2.2.2 rfl rfl rfl).2.1 rfl).2.2.1,
    (((ServeHTTP_panic
      ((((NewHealthz 30).Start none none 0).1.WithRecoverPanics true).WithLogger (some []))
      ⟨"/healthz", .error (.str "boom"), none⟩ ResponseWriter.fresh (.str "boom")
      _).2.2.2 rfl rfl rfl).2.1 rfl).2.2.2.1⟩

end Web

namespace Web
open Async

theorem prepared_frame (hz : Healthz) (w : ResponseWriter) :
    (hz.prepared w).wroteHeader = w.wroteHeader ∧ (hz.prepared w).body = w.body ∧
      (hz.prepared w).statusCode = w.statusCode := by
  obtain ⟨f1, f2, f3⟩ := foldl_setHeader_frame hz.defaultHeaders
    (w.setHeader HeaderContentEncoding ContentEncodingIdentity)
  exact ⟨f1, f2, f3⟩

/-- The latch and the calls the handler leaves do not depend on the log. -/
theorem healthzHandler_logIfSet (hz : Healthz) (e : LogEvent)
    (isRunning : Except PanicValue Bool) (w : ResponseWriter) :
    ((hz.logIfSet e).healthzHandler isRunning w).state.1.latch =
        (hz.healthzHandler isRunning w).state.1.latch ∧
      ((hz.logIfSet e).healthzHandler isRunning w).state.1.calls =
        (hz.healthzHandler isRunning w).state.1.calls ∧
      ((hz.logIfSet e).healthzHandler isRunning w).state.2 =
        (hz.healthzHandler isRunning w).state.2 ∧
      ((∃ st, (hz.logIfSet e).healthzHandler isRunning w = .returned st) ↔
        ∃ st, hz.healthzHandler isRunning w = .returned st) := by
  by_cases hst : hz.latch.phase = .stopping
  · have hst2 : (hz.logIfSet e).latch.phase = .stopping := by simpa [Healthz.logIfSet] using hst
    rw [healthzHandler_of_stopping _ _ _ hst, healthzHandler_of_stopping _ _ _ hst2]
    simp [Outcome.state, Healthz.logIfSet]
  · have hst2 : (hz.logIfSet e).latch.phase ≠ .stopping := by simpa [Healthz.logIfSet] using hst
    cases isRunning with
    | ok b =>
      rw [healthzHandler_of_not_stopping _ b _ hst, healthzHandler_of_not_stopping _ b _ hst2]
      simp [Outcome.state, Healthz.logIfSet, Healthz.invoke]
    | error v =>
      simp [Healthz.healthzHandler, Latch.IsStopping, hst, Outcome.state, Healthz.logIfSet,
        Healthz.invoke]

/-- The handler always leaves a trace: it moves the latch or it asks the hosted
process. -/
theorem healthzHandler_trace (hz : Healthz) (isRunning : Except PanicValue Bool)
    (w : ResponseWriter) :
    (hz.healthzHandler isRunning w).state.1.latch ≠ hz.latch ∨
      (hz.healthzHandler isRunning w).state.1.calls = hz.calls ++ [.hostedIsRunning] := by
  by_cases hst : hz.latch.phase = .stopping
  · left
    rw [healthzHandler_of_stopping _ _ _ hst]
    intro h
    have := congrArg Latch.phase h
    simp [Outcome.state, hst] at this
  · right
    cases isRunning with
    | ok b =>
      rw [healthzHandler_of_not_stopping _ b _ hst]
      simp [Outcome.state, Healthz.invoke]
    | error v =>
      simp [Healthz.healthzHandler, Latch.IsStopping, hst, Outcome.state, Healthz.invoke]


/-- On the health route `ServeHTTP` leaves the latch, the calls and, when the
handler returns, the response that the handler leaves. -/
theorem ServeHTTP_healthz (hz : Healthz) (env : RequestEnv) (w : ResponseWriter)
    (hroute : stringsToLower env.path = "/healthz") :
    (hz.ServeHTTP env w).state.1.latch =
        (hz.healthzHandler env.isRunning (hz.prepared w)).state.1.latch ∧
      (hz.ServeHTTP env w).state.1.calls =
        (hz.healthzHandler env.isRunning (hz.prepared w)).state.1.calls ∧
      (∀ st, hz.healthzHandler env.isRunning (hz.prepared w) = .returned st →
        (hz.ServeHTTP env w).state.2 = st.2) := by
  obtain ⟨k1, k2, k3, k4⟩ :=
    healthzHandler_logIfSet hz (.httpRequest "/healthz") env.isRunning (hz.prepared w)
  simp only [Healthz.ServeHTTP, Healthz.serveRoute, hroute, if_true]
  simp only [Healthz.prepared] at k1 k2 k3 k4 ⊢
  rw [← k1, ← k2]
  generalize (hz.logIfSet (.httpRequest "/healthz")).healthzHandler env.isRunning
    (List.foldl (fun r kv => r.setHeader kv.1 kv.2)
      (w.setHeader HeaderContentEncoding ContentEncodingIdentity) hz.defaultHeaders) = H
    at k3 k4 ⊢
  cases H with
  | returned st =>
    obtain ⟨hz2, w2⟩ := st
    refine ⟨?_, ?_, ?_⟩
    · cases env.closeErr with
      | none => simp [Outcome.state, Healthz.logIfSet]
      | some c => cases c <;> simp [Outcome.state, Healthz.logIfSet]
    · cases env.closeErr with
      | none => simp [Outcome.state, Healthz.logIfSet]
      | some c => cases c <;> simp [Outcome.state, Healthz.logIfSet]
    · intro st hst
      rw [hst] at k3
      simpa [Outcome.state] using k3
  | panicked v st =>
    obtain ⟨hz2, w2⟩ := st
    refine ⟨?_, ?_, ?_⟩
    · cases hz.recoverPanics <;> simp [Outcome.state, Healthz.logIfSet, Healthz.recover]
    · cases hz.recoverPanics <;> simp [Outcome.state, Healthz.logIfSet, Healthz.recover]
    · intro st hst
      have := k4.2 ⟨st, hst⟩
      simp at this

/-- Off the health route `ServeHTTP` returns the not-found response and leaves
the latch and the calls alone. -/
theorem ServeHTTP_not_found (hz : Healthz) (env : RequestEnv) (w : ResponseWriter)
    (hroute : stringsToLower env.path ≠ "/healthz") :
    (∃ st, hz.ServeHTTP env w = .returned st) ∧
      (hz.ServeHTTP env w).state.2 = httpNotFound (hz.prepared w) ∧
      (hz.ServeHTTP env w).state.1.calls = hz.calls ∧
      (hz.ServeHTTP env w).state.1.latch = hz.latch := by
  simp only [Healthz.ServeHTTP, Healthz.serveRoute, hroute, if_false, Healthz.prepared]
  cases env.closeErr with
  | none => simp [Outcome.state, Healthz.logIfSet]
  | some c => cases c <;> simp [Outcome.state, Healthz.logIfSet]

/-- C11 as stated fails: the path "/HEALTHZ" is not the path "/healthz", yet a
started coordinator answers it from the health handler, with status 200 after
asking the hosted process, and a coordinator in stopping moves its latch to
stopped. -/
theorem ServeHTTP_upper_case_path :
    "/HEALTHZ" ≠ "/healthz" ∧
      (Healthz.ServeHTTP ((NewHealthz 30).Start none none 0).1
          ⟨"/HEALTHZ", .ok true, none⟩ ResponseWriter.fresh).state.2.statusCode = 200 ∧
      (Healthz.ServeHTTP ((NewHealthz 30).Start none none 0).1
          ⟨"/HEALTHZ", .ok true, none⟩ ResponseWriter.fresh).state.2.body = "OK!\n" ∧
      (Healthz.ServeHTTP ((NewHealthz 30).Start none none 0).1
          ⟨"/HEALTHZ", .ok true, none⟩ ResponseWriter.fresh).state.1.calls =
        [.selfStart, .hostedStart, .hostedIsRunning] ∧
      ((NewHealthz 30).Start none none 0).1.enterStopping.latch.phase = .stopping ∧
      (Healthz.ServeHTTP ((NewHealthz 30).Start none none 0).1.enterStopping
          ⟨"/HEALTHZ", .ok true, none⟩ ResponseWriter.fresh).state.1.latch.phase = .stopped := by
  decide

/-- C11 (amended): `ServeHTTP` runs the health handler exactly when the URL path
in lower case is "/healthz". On such a path the latch, the calls and the
response are the handler's, and the handler has moved the latch or asked the
hosted process; on every other path `ServeHTTP` returns the standard not-found
response (status 404 on a fresh writer), the hosted process is not asked and the
latch is unchanged. -/
theorem ServeHTTP_route (hz : Healthz) (env : RequestEnv) (w : ResponseWriter) :
    (stringsToLower env.path = "/healthz" →
        (hz.ServeHTTP env w).state.1.latch =
            (hz.healthzHandler env.isRunning (hz.prepared w)).state.1.latch ∧
          (hz.ServeHTTP env w).state.1.calls =
            (hz.healthzHandler env.isRunning (hz.prepared w)).state.1.calls ∧
          (∀ st, hz.healthzHandler env.isRunning (hz.prepared w) = .returned st →
            (hz.ServeHTTP env w).state.2 = st.2) ∧
          ((hz.ServeHTTP env w).state.1.latch ≠ hz.latch ∨
            (hz.ServeHTTP env w).state.1.calls = hz.calls ++ [.hostedIsRunning])) ∧
      (stringsToLower env.path ≠ "/healthz" →
        (∃ st, hz.ServeHTTP env w = .returned st) ∧
          (hz.ServeHTTP env w).state.2 = httpNotFound (hz.prepared w) ∧
          (w.wroteHeader = false → w.body = "" →
            (hz.ServeHTTP env w).state.2.statusCode = 404 ∧
              (hz.ServeHTTP env w).state.2.body = "404 page not found\n") ∧
          (hz.ServeHTTP env w).state.1.calls = hz.calls ∧
          (hz.ServeHTTP env w).state.1.latch = hz.latch) := by
  constructor
  · intro hroute
    obtain ⟨h1, h2, h3⟩ := ServeHTTP_healthz hz env w hroute
    refine ⟨h1, h2, h3, ?_⟩
    rw [h1, h2]
    exact healthzHandler_trace hz env.isRunning (hz.prepared w)
  · intro hroute
    obtain ⟨h1, h2, h3, h4⟩ := ServeHTTP_not_found hz env w hroute
    refine ⟨h1, h2, ?_, h3, h4⟩
    intro hw hb
    obtain ⟨p1, p2, -⟩ := prepared_frame hz w
    rw [h2]
    exact httpError_status_body _ _ 404 (p1.trans hw) (p2.trans hb)

/-- C11 (amended) at two concrete requests to a started coordinator: the path
"/HEALTHZ" reaches the handler, the path "/varz" does not. -/
theorem ServeHTTP_route_witness :
    ((Healthz.ServeHTTP ((NewHealthz 30).Start none none 0).1
          ⟨"/HEALTHZ", .ok true, none⟩ ResponseWriter.fresh).state.1.latch ≠
          ((NewHealthz 30).Start none none 0).1.latch ∨
        (Healthz.ServeHTTP ((NewHealthz 30).Start none none 0).1
          ⟨"/HEALTHZ", .ok true, none⟩ ResponseWriter.fresh).state.1.calls =
          ((NewHealthz 30).Start none none 0).1.calls ++ [.hostedIsRunning]) ∧
      (Healthz.ServeHTTP ((NewHealthz 30).Start none none 0).1
          ⟨"/varz", .ok true, none⟩ ResponseWriter.fresh).state.2.statusCode = 404 ∧
      (Healthz.ServeHTTP ((NewHealthz 30).Start none none 0).1
          ⟨"/varz", .ok true, none⟩ ResponseWriter.fresh).state.1.calls =
        ((NewHealthz 30).Start none none 0).1.calls :=
  ⟨((ServeHTTP_route ((NewHealthz 30).Start none none 0).1 ⟨"/HEALTHZ", .ok true, none⟩
      ResponseWriter.fresh).1 (by decide)).2.2.2,
    (((ServeHTTP_route ((NewHealthz 30).Start none none 0).1 ⟨"/varz", .ok true, none⟩
      ResponseWriter.fresh).2 (by decide)).2.2.1 rfl rfl).1,
    ((ServeHTTP_route ((NewHealthz 30).Start none none 0).1 ⟨"/varz", .ok true, none⟩
      ResponseWriter.fresh).2 (by decide)).2.2.2.1⟩

end Web

namespace Collections

theorem receiveLoop_take (n : Nat) (c : Chan) (values : List Nat) (hn : n ≤ c.buf.length) :
    receiveLoop n c values = some (values ++ c.buf.take n, { c with buf := c.buf.drop n }) := by
  induction n generalizing c values with
  | zero => simp [receiveLoop]
  | succ n ih =>
    cases hbuf : c.buf with
    | nil => simp [hbuf] at hn
    | cons v rest =>
      have hlen : n ≤ rest.length := by simp [hbuf] at hn; omega
      simp only [receiveLoop, Chan.recv, hbuf]
      rw [ih { c with buf := rest } (values ++ [v]) hlen]
      simp

theorem receiveLoop_all (c : Chan) :
    receiveLoop c.len c [] = some (c.buf, { c with buf := [] }) := by
  rw [Chan.len, receiveLoop_take _ c [] (le_refl _)]
  simp

theorem sendAll_room (values : List Nat) (c : Chan)
    (h : c.buf.length + values.length ≤ c.cap) :
    sendAll values c = some { c with buf := c.buf ++ values } := by
  induction values generalizing c with
  | nil => simp [sendAll]
  | cons v rest ih =>
    have hlt : c.buf.length < c.cap := by simp at h; omega
    simp only [sendAll, Chan.send, hlt, if_true, Option.some_bind]
    rw [ih]
    · simp
    · simp at h ⊢; omega

theorem putBackLoop_room (len : Nat) (rest : List Nat) (index : Nat) (c : Chan)
    (output : Option Nat) (hidx : index + rest.length = len)
    (hroom : c.buf.length + rest.length ≤ c.cap + 1) :
    putBackLoop len rest index c output =
      some (if rest = [] then output else rest.getLast?, { c with buf := c.buf ++ rest.dropLast }) := by
  induction rest generalizing index c output with
  | nil => simp [putBackLoop]
  | cons v rest ih =>
    simp only [List.length_cons] at hidx hroom
    by_cases hlast : rest = []
    · subst hlast
      have hi : (index : Int) = (len : Int) - 1 := by simp at hidx; omega
      simp [putBackLoop, hi]
    · have hpos : 0 < rest.length := List.length_pos.2 hlast
      have hi : ¬ (index : Int) = (len : Int) - 1 := by omega
      have hlt : c.buf.length < c.cap := by omega
      simp only [putBackLoop, hi, if_false, Chan.send, hlt, if_true]
      rw [ih (index + 1) _ output (by omega) (by simp; omega)]
      cases rest with
      | nil => exact absurd rfl hlast
      | cons r rs => simp [List.getLast?_cons_cons]


/-- Sequentially, `Contents` returns the buffered values and leaves the queue
as it was. -/
theorem Contents_eq (cq : ChannelQueue) (hwf : cq.storage.buf.length ≤ cq.storage.cap) :
    cq.Contents = some (cq.storage.buf, cq) := by
  simp only [ChannelQueue.Contents, receiveLoop_all]
  rw [sendAll_room _ _ (by simpa using hwf)]
  simp

/-- Sequentially, `DequeueBack` returns the last buffered value and leaves the
others in the buffer, in their order. -/
theorem DequeueBack_eq (cq : ChannelQueue) (hwf : cq.storage.buf.length ≤ cq.storage.cap) :
    cq.DequeueBack =
      some (cq.storage.buf.getLast?,
        { cq with storage := { cq.storage with buf := cq.storage.buf.dropLast } }) := by
  simp only [ChannelQueue.DequeueBack, receiveLoop_all]
  rw [putBackLoop_room _ _ 0 _ none (by simp) (by simp; omega)]
  cases hbuf : cq.storage.buf <;> simp

/-- C13: for a queue whose contents are `xs`, `DequeueBack` returns the last
element of `xs` (nil when `xs` is empty) and leaves a queue whose contents are
`xs` without its last element, in the same order; `Capacity` and the capacity
of the channel are unchanged. -/
theorem DequeueBack_last (cq : ChannelQueue) (xs : List Nat)
    (hwf : cq.storage.buf.length ≤ cq.storage.cap)
    (hxs : cq.Contents.map Prod.fst = some xs) :
    cq.DequeueBack.map Prod.fst = some xs.getLast? ∧
      (cq.DequeueBack.bind (fun r => r.2.Contents)).map Prod.fst = some xs.dropLast ∧
      cq.DequeueBack.map (fun r => r.2.Capacity) = some cq.Capacity ∧
      cq.DequeueBack.map (fun r => r.2.storage.cap) = some cq.storage.cap ∧
      (xs = [] → cq.DequeueBack = some (none, cq)) := by
  rw [Contents_eq cq hwf] at hxs
  simp only [Option.map_some', Option.some.injEq] at hxs
  subst hxs
  have hwf2 : (cq.storage.buf.dropLast).length ≤ cq.storage.cap := by
    simp only [List.length_dropLast]; omega
  rw [DequeueBack_eq cq hwf]
  refine ⟨rfl, ?_, rfl, rfl, ?_⟩
  · simp only [Option.some_bind]
    rw [Contents_eq _ hwf2]
    rfl
  · intro hnil
    simp [hnil]
    cases cq with
    | mk cap st =>
      cases st with
      | mk c b =>
        simp at hnil
        simp [hnil]

/-- C13 on the queue made from the values 1, 2, 3. -/
theorem DequeueBack_last_witness :
    (ChannelQueue.DequeueBack ⟨3, ⟨3, [1, 2, 3]⟩⟩).map Prod.fst = some (some 3) ∧
      ((ChannelQueue.DequeueBack ⟨3, ⟨3, [1, 2, 3]⟩⟩).bind
        (fun r => r.2.Contents)).map Prod.fst = some [1, 2] ∧
      (ChannelQueue.DequeueBack ⟨3, ⟨3, [1, 2, 3]⟩⟩).map (fun r => r.2.Capacity) = some 3 ∧
      (ChannelQueue.DequeueBack ⟨3, ⟨3, [1, 2, 3]⟩⟩).map (fun r => r.2.storage.cap) =
        some 3 ∧
      (([1, 2, 3] : List Nat) = [] →
        ChannelQueue.DequeueBack ⟨3, ⟨3, [1, 2, 3]⟩⟩ = some (none, ⟨3, ⟨3, [1, 2, 3]⟩⟩)) :=
  DequeueBack_last ⟨3, ⟨3, [1, 2, 3]⟩⟩ [1, 2, 3] (by decide) (by decide)

end Collections

namespace Sh

/-- Whatever the command writes, the byte slice `PutOutput` returns is the one
taken from the buffer before the command ran: it is empty. -/
theorem PutOutput_bytes_empty (env : ExecEnv) (stdin command : String) (args : List String) :
    (PutOutput env stdin command args).bytes = "" := by
  unfold PutOutput
  cases env.lookPath command <;> rfl

/-- For a command that is found, the buffer holds the output of the command
when `PutOutput` returns, and the error is the one of the run. -/
theorem PutOutput_found (env : ExecEnv) (stdin command absoluteCommand : String)
    (args : List String) (h : env.lookPath command = .ok absoluteCommand) :
    (PutOutput env stdin command args).buffer.contents =
        (env.run absoluteCommand args stdin).1 ∧
      (PutOutput env stdin command args).err = (env.run absoluteCommand args stdin).2 ∧
      (PutOutput env stdin command args).ran = true := by
  simp [PutOutput, h, Buffer.Write]

/-- For a command that is not found, `PutOutput` returns nil bytes and the
lookup error and runs nothing. -/
theorem PutOutput_not_found (env : ExecEnv) (stdin command err : String)
    (args : List String) (h : env.lookPath command = .error err) :
    PutOutput env stdin command args =
      { bytes := "", err := some err, buffer := { contents := "" }, ran := false } := by
  simp [PutOutput, h]

/-- C12 fails on the code: `echo hi` is found and run and writes "hi" and a
newline, which the buffer holds at the return, but the byte slice `PutOutput`
returns is empty. -/
theorem PutOutput_echo :
    (PutOutput exampleEnv "" "echo" ["hi"]).ran = true ∧
      (PutOutput exampleEnv "" "echo" ["hi"]).err = none ∧
      (PutOutput exampleEnv "" "echo" ["hi"]).buffer.contents = "hi\n" ∧
      (PutOutput exampleEnv "" "echo" ["hi"]).bytes = "" ∧
      (PutOutput exampleEnv "" "echo" ["hi"]).bytes ≠
        (exampleEnv.run "/bin/echo" ["hi"] "").1 := by
  decide

theorem Pipe_getElem? (commands : List Cmd) (index : Nat) (h : index < commands.length) :
    (Pipe commands)[index]? = some (wire commands.length index) := by
  simp [Pipe, List.getElem?_map, List.getElem?_range h]

/-- For two commands or more `Pipe` wires a chain: the first command reads the
standard input of the process, every later command reads the pipe the command
before it writes its standard output and standard error to, and the last
command writes to the standard output and standard error of the process. -/
theorem Pipe_chain (commands : List Cmd) (h : 2 ≤ commands.length) :
    ((Pipe commands)[0]?.map Cmd.Stdin = some .osStdin) ∧
      (∀ index : Nat, 0 < index → index < commands.length →
        (Pipe commands)[index]?.map Cmd.Stdin = some (.pipeReader (index - 1)) ∧
          (Pipe commands)[index - 1]?.map Cmd.Stdout = some (.pipeWriter (index - 1)) ∧
          (Pipe commands)[index - 1]?.map Cmd.Stderr = some (.pipeWriter (index - 1))) ∧
      (Pipe commands)[commands.length - 1]?.map Cmd.Stdout = some .osStdout ∧
      (Pipe commands)[commands.length - 1]?.map Cmd.Stderr = some .osStderr := by
  refine ⟨?_, ?_, ?_, ?_⟩
  · rw [Pipe_getElem? commands 0 (by omega)]
    simp [wire]
  · intro index hpos hlt
    rw [Pipe_getElem? commands index hlt, Pipe_getElem? commands (index - 1) (by omega)]
    have hne : index ≠ 0 := by omega
    have hprev : ¬ ((index - 1 : Nat) : Int) = (commands.length : Int) - 1 := by omega
    refine ⟨?_, ?_, ?_⟩
    · simp only [wire, hne, if_false, Option.map_some']
      split <;> rfl
    · simp only [wire, hprev, if_false, Option.map_some']
      split <;> simp_all
    · simp only [wire, hprev, if_false, Option.map_some']
      split <;> simp_all
  · rw [Pipe_getElem? commands _ (by omega)]
    have hne : commands.length - 1 ≠ 0 := by omega
    have hlast : ((commands.length - 1 : Nat) : Int) = (commands.length : Int) - 1 := by omega
    simp [wire, hne, hlast]
  · rw [Pipe_getElem? commands _ (by omega)]
    have hne : commands.length - 1 ≠ 0 := by omega
    have hlast : ((commands.length - 1 : Nat) : Int) = (commands.length : Int) - 1 := by omega
    simp [wire, hne, hlast]

/-- C14 fails on the code for a single command: it is wired by the case of the
first command, so its standard output and standard error are the write end of
the pipe made for it, which no command reads, and not the standard output and
standard error of the process. -/
theorem Pipe_single_command :
    Pipe [⟨.unset, .unset, .unset⟩] =
        [⟨.osStdin, .pipeWriter 0, .pipeWriter 0⟩] ∧
      (Pipe [⟨.unset, .unset, .unset⟩])[0]?.map Cmd.Stdout ≠ some .osStdout ∧
      (Pipe [⟨.unset, .unset, .unset⟩])[0]?.map Cmd.Stderr ≠ some .osStderr ∧
      ∀ index : Nat, (Pipe [⟨.unset, .unset, .unset⟩])[index]?.map Cmd.Stdin ≠ some (.pipeReader 0) := by
  refine ⟨by decide, by decide, by decide, ?_⟩
  intro index
  cases index with
  | zero => decide
  | succ n =>
    have hnone : (Pipe [⟨.unset, .unset, .unset⟩])[n + 1]? = none := by
      apply List.getElem?_eq_none
      simp [Pipe]
    simp [hnone]

end Sh
